import Mathlib

set_option linter.unusedVariables false

/-!
Verification development for the IPO allotment scraping backend.

The definitions below are a shallow embedding of the multi-registrar
allotment resolution subsystem (the allotment service file family).
Stateful code (the in-memory resolution caches) is modelled by explicit
state passing; outbound HTTP traffic is modelled by oracle parameters that
carry the parsed content of each response the code would receive, together
with explicit fetch counters.  String operations mirror the JavaScript
semantics on the relevant (ASCII) inputs.
-/

namespace IpoEdge

/-- JavaScript includes on strings: substring containment, modelled on
character lists.  The empty pattern is contained in every string. -/
def listContainsSub (p : List Char) : List Char → Bool
  | [] => p.isEmpty
  | c :: rest => p.isPrefixOf (c :: rest) || listContainsSub p rest

/-- hay.includes(pat) in the JavaScript source. -/
def strIncludes (hay pat : String) : Bool :=
  listContainsSub pat.toList hay.toList

/-- JavaScript toLowerCase, on the character list so that it reduces in
the kernel. -/
def jsToLower (s : String) : String :=
  String.mk (s.toList.map Char.toLower)

/-- JavaScript trim: strip leading and trailing whitespace. -/
def jsTrim (s : String) : String :=
  String.mk (((s.toList.dropWhile (·.isWhitespace)).reverse.dropWhile
    (·.isWhitespace)).reverse)

/-- s.trim().toLowerCase() in the source. -/
def jsTrimLower (s : String) : String :=
  jsToLower (jsTrim s)

/-- s.toLowerCase().trim() in the source. -/
def jsLowerTrim (s : String) : String :=
  jsTrim (jsToLower s)

/-- The test /^\d+$/.test(s): nonempty and all decimal digits. -/
def isNumericStr (s : String) : Bool :=
  !s.toList.isEmpty && s.toList.all (·.isDigit)

/-- JavaScript word characters, the class \w = [A-Za-z0-9_]. -/
def isWordChar (c : Char) : Bool :=
  c.isAlphanum || c == '_'

/-- Corporate suffix words removed by the fuzzy-matching step, from the
regular expression in getBigshareCompanyId. -/
def corpStopwords : List String :=
  ["limited", "ltd", "pvt", "private", "company", "corp", "corporation",
   "inc", "incorporated"]

/-- Splits a character list into maximal runs of equal isWordChar value. -/
def charRuns : List Char → List (List Char)
  | [] => []
  | c :: rest =>
    match charRuns rest with
    | [] => [[c]]
    | [] :: rs => [c] :: [] :: rs
    | (d :: ds) :: rs =>
      if isWordChar c == isWordChar d then (c :: d :: ds) :: rs
      else [c] :: (d :: ds) :: rs

/-- Models s.replace(/\b(limited|ltd|...)\b/g, '').trim() on a lowercased
string: every word-bounded occurrence of a corporate stopword is removed,
surrounding separators are kept, and the result is trimmed. -/
def cleanCorpWords (s : String) : String :=
  let kept := (charRuns s.toList).map fun r =>
    if isWordChar (r.headD ' ') && corpStopwords.contains (String.mk r) then
      ([] : List Char)
    else r
  jsTrim (String.mk kept.flatten)

/-- Models s.replace(/[^a-z0-9]/g, '') used by the MUFG matcher. -/
def normAlnum (s : String) : String :=
  String.mk (s.toList.filter fun c => c.isDigit || ('a' ≤ c && c ≤ 'z'))

/-- Splits a character list at every separator character, keeping empty
fragments. -/
def splitChars (p : Char → Bool) : List Char → List (List Char)
  | [] => [[]]
  | c :: rest =>
    match splitChars p rest with
    | [] => if p c then [[], []] else [[c]]
    | h :: t => if p c then [] :: h :: t else (c :: h) :: t

/-- Tokens of a cleaned string: split on whitespace, keep length > 2.
The JavaScript split(/\s+/) can differ from a per-character split only in
empty fragments, which the length filter removes either way. -/
def fuzzyTokens (s : String) : List String :=
  ((splitChars (·.isWhitespace) s.toList).filter (·.length > 2)).map String.mk

/-! ## Resolution caches

Each resolver owns one Map from a normalized IPO name to a record
holding the resolved identifier (possibly null) and an insertion
timestamp.  A Map is modelled as an association list in insertion order;
set updates in place, delete removes the entry of the given key. -/

/-- One cache record: an id that is a string or null, and a timestamp. -/
structure CacheEntry where
  id : Option String
  timestamp : Int
deriving Repr, DecidableEq

/-- A company-id cache, in Map insertion order. -/
abbrev Cache := List (String × CacheEntry)

/-- Map.get, also JavaScript object property read (string keys keep
insertion order, so both containers share one association-list model). -/
def mapGet {β : Type} : List (String × β) → String → Option β
  | [], _ => none
  | (k', e) :: rest, k => if k' = k then some e else mapGet rest k

/-- Map.set, also object property write: update in place when the key
exists, append otherwise. -/
def mapSet {β : Type} : List (String × β) → String → β → List (String × β)
  | [], k, e => [(k, e)]
  | (k', e') :: rest, k, e =>
    if k' = k then (k, e) :: rest else (k', e') :: mapSet rest k e

/-- Map.delete of a key. -/
def mapDelete {β : Type} : List (String × β) → String → List (String × β)
  | [], _ => []
  | (k', e') :: rest, k => if k' = k then rest else (k', e') :: mapDelete rest k

/-- Keys of a cache, in insertion order. -/
def cacheKeys (c : Cache) : List String := c.map Prod.fst

/-- CACHE_DURATION = 24 * 60 * 60 * 1000 milliseconds. -/
def CACHE_DURATION : Int := 24 * 60 * 60 * 1000

/-- MAX_CACHE_SIZE = 1000 entries. -/
def MAX_CACHE_SIZE : Nat := 1000

/-- cleanupCache: drop entries older than CACHE_DURATION, then, if the
size exceeds MAX_CACHE_SIZE, sort a copy of the entries ascending by
timestamp and delete the keys of the oldest (size - MAX_CACHE_SIZE)
entries.  The functions cleanupCache, cleanupMufgCache and
cleanupPurvaCache in the source are textually identical up to the cache
they touch, so one definition over an explicit cache serves all three. -/
def cleanupCache (c : Cache) (now : Int) : Cache :=
  let filtered := c.filter fun kv => !(decide (now - kv.2.timestamp > CACHE_DURATION))
  if filtered.length > MAX_CACHE_SIZE then
    let sorted := filtered.mergeSort fun a b => a.2.timestamp ≤ b.2.timestamp
    let toRemove := sorted.take (filtered.length - MAX_CACHE_SIZE)
    toRemove.foldl (fun acc kv => mapDelete acc kv.1) filtered
  else filtered

/-! ## BigShare identifier resolver -/

/-- One option element of a scraped dropdown: value attribute (absent
when the element has none) and its displayed text. -/
structure DropOption where
  value : Option String
  text : String
deriving Repr, DecidableEq

/-- The outcome of fetching one BigShare listing URL: a transport error,
or a page given as the option lists produced by the five selectors the
code tries in order. -/
inductive BigshareUrlOutcome where
  | fail (msg : String)
  | page (selectorScans : List (List DropOption))

/-- The four-step match test applied by getBigshareCompanyId to one
option text t (already trimmed and lowercased) against the search name s:
exact equality, substring containment either direction, containment after
removing corporate stopwords, then token overlap with ratio at least one
half of the search token count. -/
def bigshareOptionMatch (s t : String) : Bool :=
  (t == s) ||
  (strIncludes t s || strIncludes s t) ||
  (let ct := cleanCorpWords t
   let cs := cleanCorpWords s
   strIncludes ct cs || strIncludes cs ct) ||
  (let ow := fuzzyTokens (cleanCorpWords t)
   let sw := fuzzyTokens (cleanCorpWords s)
   let matching := sw.countP fun w => ow.any fun o => strIncludes o w || strIncludes w o
   decide (sw.length > 0) && decide (2 * matching ≥ sw.length))

/-- The each-loop over the options of one selector: skip options with a
missing, empty or zero value or whose text includes the word select, and
return the value of the first option passing the match test. -/
def bigshareScanOptions (s : String) : List DropOption → Option String
  | [] => none
  | o :: rest =>
    match o.value with
    | none => bigshareScanOptions s rest
    | some v =>
      let t := jsTrimLower o.text
      if v == "" || v == "0" || strIncludes t "select" then
        bigshareScanOptions s rest
      else if bigshareOptionMatch s t then some v
      else bigshareScanOptions s rest

/-- The selector loop of getBigshareCompanyId: scan each selector result
in turn and stop at the first one that yields a company id. -/
def bigshareScanPage (s : String) (sels : List (List DropOption)) : Option String :=
  sels.findSome? (bigshareScanOptions s)

/-- The URL loop of getBigshareCompanyId: fetch each listing URL in turn,
counting attempted fetches, and stop at the first page whose scan finds a
company id; a transport error at one URL moves on to the next. -/
def bigshareTryUrls (s : String) : List BigshareUrlOutcome → Option String × Nat
  | [] => (none, 0)
  | .fail _ :: rest =>
    let (r, n) := bigshareTryUrls s rest
    (r, n + 1)
  | .page sels :: rest =>
    match bigshareScanPage s sels with
    | some cid => (some cid, 1)
    | none =>
      let (r, n) := bigshareTryUrls s rest
      (r, n + 1)

/-- getBigshareCompanyId: check the cache under the lowercased trimmed
name; a fresh entry is returned with no outbound fetch, otherwise the
listing URLs are scraped and the outcome, even a null one, is written to
the cache followed by a cleanup.  Returns the resolved id, the updated
cache and the number of outbound fetch attempts performed. -/
def getBigshareCompanyId (ipoName : String) (now : Int) (cache : Cache)
    (outcomes : List BigshareUrlOutcome) : Option String × Cache × Nat :=
  let cacheKey := jsLowerTrim ipoName
  let hit : Option (Option String) :=
    match mapGet cache cacheKey with
    | some e => if now - e.timestamp < CACHE_DURATION then some e.id else none
    | none => none
  match hit with
  | some v => (v, cache, 0)
  | none =>
    let (res, n) := bigshareTryUrls cacheKey outcomes
    match res with
    | some cid => (some cid, cleanupCache (mapSet cache cacheKey ⟨some cid, now⟩) now, n)
    | none => (none, cleanupCache (mapSet cache cacheKey ⟨none, now⟩) now, n)

/-! ## MUFG identifier resolver -/

/-- One company element of the decoded MUFG XML list. -/
structure MufgCompany where
  companyName : String
  companyId : String
deriving Repr, DecidableEq

/-- The outcome of the single MUFG company-list request: a transport
error, a response without the d payload, or the decoded company list. -/
inductive MufgListOutcome where
  | fail (msg : String)
  | noData
  | page (companies : List MufgCompany)

/-- The match test of getMufgCompanyId for one company name against the
search name (lowercased trimmed ipoName): substring containment either
direction, containment of the alphanumeric normalizations either
direction, or an indexOf containment check on the lowercased name. -/
def mufgCompanyMatch (search companyName : String) : Bool :=
  let companyNameLower := jsLowerTrim companyName
  let normalizedSearch := normAlnum search
  let normalizedCompany := normAlnum companyNameLower
  strIncludes companyNameLower search ||
  strIncludes search companyNameLower ||
  strIncludes normalizedCompany normalizedSearch ||
  strIncludes normalizedSearch normalizedCompany ||
  strIncludes (jsToLower companyName) search

/-- The company loop of getMufgCompanyId: skip entries with an empty
name or id and return the id of the first matching company. -/
def mufgFindCompany (search : String) : List MufgCompany → Option String
  | [] => none
  | c :: rest =>
    if c.companyName == "" || c.companyId == "" then mufgFindCompany search rest
    else if mufgCompanyMatch search c.companyName then some c.companyId
    else mufgFindCompany search rest

/-- getMufgCompanyId: cache check as for BigShare, then one outbound
request for the company list; a match is cached positively, every other
outcome, transport errors included, is cached negatively. -/
def getMufgCompanyId (ipoName : String) (now : Int) (cache : Cache)
    (outcome : MufgListOutcome) : Option String × Cache × Nat :=
  let cacheKey := jsLowerTrim ipoName
  let hit : Option (Option String) :=
    match mapGet cache cacheKey with
    | some e => if now - e.timestamp < CACHE_DURATION then some e.id else none
    | none => none
  match hit with
  | some v => (v, cache, 0)
  | none =>
    match outcome with
    | .page cs =>
      match mufgFindCompany cacheKey cs with
      | some cid => (some cid, cleanupCache (mapSet cache cacheKey ⟨some cid, now⟩) now, 1)
      | none => (none, cleanupCache (mapSet cache cacheKey ⟨none, now⟩) now, 1)
    | _ => (none, cleanupCache (mapSet cache cacheKey ⟨none, now⟩) now, 1)

/-! ## Purva identifier resolver -/

/-- The outcome of the single Purva listing request: a transport error or
the options of the company dropdown. -/
inductive PurvaListOutcome where
  | fail (msg : String)
  | page (opts : List DropOption)

/-- The option loop of getPurvaCompanyId: return the value of the first
option with a nonempty value whose trimmed lowercased text contains the
lowercased ipoName. -/
def purvaScanOptions (ipoName : String) : List DropOption → Option String
  | [] => none
  | o :: rest =>
    match o.value with
    | none => purvaScanOptions ipoName rest
    | some v =>
      if v != "" && strIncludes (jsTrimLower o.text) (jsToLower ipoName) then some v
      else purvaScanOptions ipoName rest

/-- getPurvaCompanyId: cache check as for BigShare, then one outbound
request for the dropdown; a match is cached positively, every other
outcome, transport errors included, is cached negatively. -/
def getPurvaCompanyId (ipoName : String) (now : Int) (cache : Cache)
    (outcome : PurvaListOutcome) : Option String × Cache × Nat :=
  let cacheKey := jsLowerTrim ipoName
  let hit : Option (Option String) :=
    match mapGet cache cacheKey with
    | some e => if now - e.timestamp < CACHE_DURATION then some e.id else none
    | none => none
  match hit with
  | some v => (v, cache, 0)
  | none =>
    match outcome with
    | .page opts =>
      match purvaScanOptions ipoName opts with
      | some cid => (some cid, cleanupCache (mapSet cache cacheKey ⟨some cid, now⟩) now, 1)
      | none => (none, cleanupCache (mapSet cache cacheKey ⟨none, now⟩) now, 1)
    | .fail _ => (none, cleanupCache (mapSet cache cacheKey ⟨none, now⟩) now, 1)

/-! ## Data model: registrars, results, status taxonomy -/

/-- RegistrarType: the closed set of ten registrar identifiers, in the
order of the configuration table and of the checker table. -/
inductive RegistrarType where
  | bigshare | kfintech | linkintime | skyline | cameo
  | mas | maashitla | beetal | purva | mufg
deriving DecidableEq, Repr

/-- The string value of each RegistrarType member. -/
def registrarName : RegistrarType → String
  | .bigshare => "bigshare"
  | .kfintech => "kfintech"
  | .linkintime => "linkintime"
  | .skyline => "skyline"
  | .cameo => "cameo"
  | .mas => "mas"
  | .maashitla => "maashitla"
  | .beetal => "beetal"
  | .purva => "purva"
  | .mufg => "mufg"

/-- The key order of the registrarCheckers object literal, which is the
iteration order of Object.entries over it, and also the key order of the
registrarConfigs table. -/
def registrarOrder : List RegistrarType :=
  [.bigshare, .kfintech, .linkintime, .skyline, .cameo,
   .mas, .maashitla, .beetal, .purva, .mufg]

/-- IPOAllotmentResponse.  The raw payload and the allotmentDetails
record are opaque to every property in scope, so they are modelled by
Option Unit: none is null or absent, some () is any non-null value. -/
structure IPOAllotmentResponse where
  success : Bool
  registrar : String
  raw : Option Unit
  status : String
  error : Option String := none
  details : Option String := none
  allotmentDetails : Option Unit := none
deriving DecidableEq, Repr

/-- StatusKind, the closed status taxonomy of the specification. -/
inductive StatusKind where
  | Allotted | NotAllotted | NoRecordFound | Pending
  | CaptchaRequired | Error | Unknown
deriving DecidableEq, Repr

/-- Maps the status strings the checkers produce onto the closed
StatusKind set; a string with no corresponding member maps to none. -/
def statusKindOf (s : String) : Option StatusKind :=
  if s == "Allotted" then some .Allotted
  else if s == "Not Allotted" then some .NotAllotted
  else if s == "No Record Found" then some .NoRecordFound
  else if s == "Pending" then some .Pending
  else if s == "captcha_required" then some .CaptchaRequired
  else if s == "error" || s == "Error" then some .Error
  else if s == "unknown" then some .Unknown
  else none

/-! ## Generic HTML checker -/

/-- checkHtmlRegistrar, used for skyline, mas, maashitla and beetal: one
GET of the configured URL (for maashitla with company and search query
parameters appended); a successful response is returned raw with status
parse_needed, a transport failure becomes an error result. -/
def checkHtmlRegistrar (registrar : RegistrarType) (outcome : Except String Unit) :
    IPOAllotmentResponse :=
  match outcome with
  | .ok _ =>
    { success := true, registrar := registrarName registrar, raw := some (),
      status := "parse_needed" }
  | .error msg =>
    { success := false, registrar := registrarName registrar, raw := none,
      status := "error", error := some msg }

/-! ## Dispatcher -/

/-- The result the dispatch loop pushes when a checker throws. -/
def mkDispatchError (r : RegistrarType) (msg : String) : IPOAllotmentResponse :=
  { success := false, registrar := registrarName r, raw := none,
    status := "error", error := some msg }

/-- IPOAllotmentService.checkAllRegistrars: iterate the checker table in
its fixed key order, awaiting each checker inside a try block; a normal
return is pushed as is, a thrown exception is converted into that
registrar Error entry.  The behaviour of each checker call on the current
request is abstracted by the behave argument: ok models a normal return,
error models a thrown exception with its message. -/
def checkAllRegistrars (behave : RegistrarType → Except String IPOAllotmentResponse) :
    List IPOAllotmentResponse :=
  registrarOrder.foldl
    (fun results r =>
      match behave r with
      | .ok res => results ++ [res]
      | .error msg => results ++ [mkDispatchError r msg])
    []

/-! ## The MUFG and Link Intime company-code step -/

/-- The identifier step shared by checkMufg and checkLinkIntime: the
resolver getMufgCompanyId is invoked first, unconditionally; only when it
returns null and the provided name is numeric is the name itself used as
the company id; otherwise the checker will return its error result.
Returns the chosen company id, the updated cache and the number of
outbound listing fetches performed. -/
def mufgResolveCompanyId (ipoName : String) (now : Int) (cache : Cache)
    (outcome : MufgListOutcome) : Option String × Cache × Nat :=
  let (r, c, n) := getMufgCompanyId ipoName now cache outcome
  match r with
  | some cid => (some cid, c, n)
  | none =>
    if isNumericStr ipoName then (some ipoName, c, n) else (none, c, n)

/-! ## Purva checker -/

/-- Digit value of a character in bases up to 16, via code points: the
decimal digits sit at 48 to 57, the hexadecimal letters at 97 to 102 in
lower case and 65 to 70 in upper case. -/
def charDigitVal (c : Char) : Option Nat :=
  let n := c.toNat
  if 48 ≤ n && n ≤ 57 then some (n - 48)
  else if 97 ≤ n && n ≤ 102 then some (n - 87)
  else if 65 ≤ n && n ≤ 70 then some (n - 55)
  else none

/-- Value of the longest leading run of digits valid in the base; none
when that run is empty. -/
def parseDigits (base : Nat) (cs : List Char) : Option Nat :=
  let ds := cs.takeWhile fun c => ((charDigitVal c).map (fun v => decide (v < base))).getD false
  if ds.isEmpty then none
  else some (ds.foldl (fun acc c => acc * base + (charDigitVal c).getD 0) 0)

/-- JavaScript parseInt with no radix argument: skip leading whitespace,
take an optional sign, recognise a 0x prefix as hexadecimal, and read the
longest valid digit run, ignoring anything after it; none models NaN. -/
def parseIntJS (s : String) : Option Int :=
  let cs := s.toList.dropWhile (·.isWhitespace)
  let signed : Int × List Char :=
    match cs with
    | '-' :: rest => (-1, rest)
    | '+' :: rest => (1, rest)
    | _ => (1, cs)
  match signed.2 with
  | '0' :: c :: rest =>
    if c == 'x' || c == 'X' then (parseDigits 16 rest).map (signed.1 * ·)
    else (parseDigits 10 signed.2).map (signed.1 * ·)
  | _ => (parseDigits 10 signed.2).map (signed.1 * ·)

/-- parseInt(text) || 0 in the Purva row scan: NaN becomes 0. -/
def parseIntOr0 (s : String) : Int :=
  (parseIntJS s).getD 0

/-- The Purva table classification over the rows of the first table: skip
the header row, and over every data row with at least six cells read the
sixth cell as the allotted-shares count; any positive count makes the
result Allotted, otherwise Not Allotted. -/
def purvaClassify (rows : List (List String)) : String :=
  let dataRows := rows.drop 1
  let scan := dataRows.foldl
    (fun (acc : Bool × Int) cells =>
      if cells.length ≥ 6 then
        let sharesAllotted := parseIntOr0 (jsTrim (cells.getD 5 ""))
        if sharesAllotted > 0 then (true, acc.2 + sharesAllotted) else acc
      else acc)
    (false, 0)
  if scan.1 && decide (scan.2 > 0) then "Allotted" else "Not Allotted"

/-- Builds an error response of the Purva checker. -/
def purvaErrorResp (msg : String) : IPOAllotmentResponse :=
  { success := false, registrar := "purva", raw := none,
    status := "error", error := some msg }

/-- checkPurva.  Oracles: csrfPage is the initial GET (its csrf token
value when an input carries one), listing is the company-list request of
the resolver, post is the form submission with the tables of the reply,
each table the td texts of its tr rows.  A missing or empty csrf token is
a specific error; a numeric ipoName is used directly as company id with
no resolver call; a failed resolution falls back to company id 78; no
table or a header-only first table is No Record Found, anything else is
classified by the allotted-shares column. -/
def checkPurva (ipoName panNo : String) (now : Int) (cache : Cache)
    (csrfPage : Except String (Option String))
    (listing : PurvaListOutcome)
    (post : Except String (List (List (List String)))) :
    IPOAllotmentResponse × Cache :=
  match csrfPage with
  | .error msg => (purvaErrorResp msg, cache)
  | .ok csrfOpt =>
    match csrfOpt with
    | none => (purvaErrorResp "Could not extract CSRF token from Purva website", cache)
    | some csrf =>
      if csrf == "" then
        (purvaErrorResp "Could not extract CSRF token from Purva website", cache)
      else
        let resolved : String × Cache :=
          if isNumericStr ipoName then (ipoName, cache)
          else
            let (r, c, _) := getPurvaCompanyId ipoName now cache listing
            (r.getD "78", c)
        match post with
        | .error msg => (purvaErrorResp msg, resolved.2)
        | .ok tables =>
          match tables.head? with
          | none =>
            ({ success := true, registrar := "purva", raw := some (),
               status := "No Record Found" }, resolved.2)
          | some rows =>
            if rows.length ≤ 1 then
              ({ success := true, registrar := "purva", raw := some (),
                 status := "No Record Found" }, resolved.2)
            else
              ({ success := true, registrar := "purva", raw := some (),
                 status := purvaClassify rows }, resolved.2)

/-! ## Cameo checker -/

/-- The form page of one Cameo endpoint: the hidden state inputs and the
company dropdown options as (value attribute, raw text) pairs. -/
structure CameoPage where
  viewState : Option String
  viewStateGenerator : Option String
  eventValidation : Option String
  dropOptions : List (Option String × String)
deriving Repr

/-- One cell of a scraped Cameo table: header flag and text. -/
structure CameoCell where
  isTh : Bool
  text : String
deriving Repr, DecidableEq

/-- The content of a Cameo submission reply after the updatePanel split:
whether the raw html holds a NO DATA FOUND marker, the tables with their
rows and cells, and the text of the result container when one matches. -/
structure CameoContent where
  noDataMarker : Bool
  tables : List (List (List CameoCell))
  resultDivText : Option String
deriving Repr

/-- A Cameo submission reply: whether the html includes the showpop6
captcha message, and its parsed content. -/
structure CameoResp where
  challengeMarker : Bool
  content : CameoContent
deriving Repr

/-- The outcome of one Cameo form submission: a thrown transport error or
a reply. -/
inductive CameoSubmitOutcome where
  | err (msg : String)
  | resp (r : CameoResp)

/-- The outcome of one Cameo endpoint: the initial GET fails, or yields a
form page together with the random captcha value generated for that
endpoint and the reply to each successive submission attempt. -/
inductive CameoEndpointOutcome where
  | fail (msg : String)
  | page (p : CameoPage) (randCaptcha : String) (submits : Nat → CameoSubmitOutcome)

/-- The companies object scraped from the dropdown: options with a value
that is present, not empty and not 0 and a nonempty trimmed text are
stored under their lowercased text, later duplicates overwriting. -/
def cameoCompanies (opts : List (Option String × String)) : List (String × String) :=
  opts.foldl
    (fun acc ov =>
      let text := jsTrim ov.2
      match ov.1 with
      | some v =>
        if v != "" && v != "0" && text != "" then mapSet acc (jsToLower text) v else acc
      | none => acc)
    []

/-- The company selection of checkCameo: exact lookup of the lowercased
ipoName, then the first entry matching by substring containment either
direction, then the first company of the dropdown as a fallback; none
only when the dropdown produced no companies at all. -/
def cameoChooseCompany (ipoName : String) (p : CameoPage) : Option String :=
  let companies := cameoCompanies p.dropOptions
  let ipoNameLower := jsToLower ipoName
  match mapGet companies ipoNameLower with
  | some code => some code
  | none =>
    match companies.find? fun kv =>
        strIncludes kv.1 ipoNameLower || strIncludes ipoNameLower kv.1 with
    | some kv => some kv.2
    | none => companies.head?.map Prod.snd

/-- Header texts of a Cameo table row: every cell, th or td, trimmed. -/
def cameoHeaderTexts (row : List CameoCell) : List String :=
  row.map fun c => jsTrim c.text

/-- Data cell texts of a Cameo table row: the td cells only, trimmed. -/
def cameoTdTexts (row : List CameoCell) : List String :=
  (row.filter fun c => !c.isTh).map fun c => jsTrim c.text

/-- Whether a header text names one of the expected Cameo columns. -/
def cameoExpectedHeader (h : String) : Bool :=
  strIncludes h "HOLD_ID" || strIncludes h "ALLOTTED_SHARES" ||
  strIncludes h "REFUND_AMOUNT" || strIncludes h "REFUND_MODE" ||
  strIncludes h "PAN_NO"

/-- Whether a cell text carries a no-data message. -/
def cameoNoDataCell (t : String) : Bool :=
  strIncludes t "NO DATA FOUND" || strIncludes t "NO RECORD FOUND" ||
  strIncludes t "NO DATA FOUND FOR THIS SEARCH"

/-- Processing of one data row of a recognised Cameo table, updating the
running (status, details) state. -/
def cameoProcessRow (st : String × Option Unit) (row : List CameoCell) :
    String × Option Unit :=
  let tds := cameoTdTexts row
  if tds.length > 0 then
    if tds.any cameoNoDataCell then ("No Record Found", st.2)
    else if tds.length ≥ 4 && tds.getD 0 "" != "" then
      let shares := tds.getD 1 ""
      let status := if shares != "0" && shares != "" then "Allotted" else "Not Allotted"
      (status, some ())
    else st
  else st

/-- Processing of one Cameo table: when its header row looks like the
expected allotment table (a recognised column name or at least four
header cells), every data row is processed in order. -/
def cameoProcessTable (st : String × Option Unit) (table : List (List CameoCell)) :
    String × Option Unit :=
  match table with
  | [] => st
  | headerRow :: dataRows =>
    let headers := cameoHeaderTexts headerRow
    if headers.any cameoExpectedHeader || headers.length ≥ 4 then
      dataRows.foldl cameoProcessRow st
    else st

/-- The response parsing of checkCameo: start from No Record Found, scan
every table, then let the result container text override the status when
it mentions no data or allotment. -/
def cameoParseContent (c : CameoContent) : String × Option Unit :=
  let st0 : String × Option Unit := ("No Record Found", none)
  let st1 := c.tables.foldl cameoProcessTable st0
  match c.resultDivText with
  | some txt =>
    if jsTrim txt != "" then
      let resultText := jsTrim txt
      if strIncludes (jsToLower resultText) "no data found" ||
         strIncludes (jsToLower resultText) "no record found" then
        ("No Record Found", st1.2)
      else if strIncludes (jsToLower resultText) "allot" then
        ((if strIncludes resultText "not" then "Not Allotted" else "Allotted"), st1.2)
      else st1
    else st1
  | none => st1

/-- The ordered captcha fallback values tried by checkCameo; the fourth
is the random six-digit value generated for the endpoint. -/
def cameoCaptchaStrategies (randCaptcha : String) : List String :=
  ["596407", "123456", "000000", randCaptcha, ""]

/-- The captcha loop of checkCameo over one endpoint: submission errors
and challenge-marked replies move to the next captcha value; the first
other reply is parsed and returned; none when every value is exhausted. -/
def cameoCaptchaLoop (companyCode : String) (submits : Nat → CameoSubmitOutcome) :
    List String → Nat → Option IPOAllotmentResponse
  | [], _ => none
  | cap :: rest, i =>
    match submits i with
    | .err _ => cameoCaptchaLoop companyCode submits rest (i + 1)
    | .resp r =>
      if r.challengeMarker then cameoCaptchaLoop companyCode submits rest (i + 1)
      else
        let parsed := cameoParseContent r.content
        some { success := true, registrar := "cameo", raw := some (),
               status := parsed.1, allotmentDetails := parsed.2,
               details := some ("Used company code: " ++ companyCode ++
                 ", captcha: " ++ (if cap == "" then "empty" else cap)) }

/-- checkCameo: try each endpoint in turn; an endpoint without a usable
form page or companies moves to the next; on a usable page the captcha
loop runs, and exhausting every captcha value returns the
captcha-required failure from inside the endpoint loop; only when every
endpoint is unusable is the generic unavailable error returned. -/
def checkCameo (ipoName panNo : String) : List CameoEndpointOutcome → IPOAllotmentResponse
  | [] =>
    { success := false, registrar := "cameo", raw := none, status := "error",
      error := some "All Cameo endpoints are unavailable" }
  | .fail _ :: rest => checkCameo ipoName panNo rest
  | .page p randCaptcha submits :: rest =>
    match p.viewState with
    | none => checkCameo ipoName panNo rest
    | some vs =>
      if vs == "" then checkCameo ipoName panNo rest
      else
        match cameoChooseCompany ipoName p with
        | none => checkCameo ipoName panNo rest
        | some companyCode =>
          match cameoCaptchaLoop companyCode submits (cameoCaptchaStrategies randCaptcha) 0 with
          | some res => res
          | none =>
            { success := false, registrar := "cameo", raw := none,
              status := "captcha_required",
              error := some ("All captcha strategies failed. Captcha verification " ++
                "is required for Cameo IPO allotment checking.") }

/-! ## Auxiliary predicates used by the theorems -/

/-- Distinctness of the keys of an association list, the standing
invariant of every Map instance. -/
def keysNodup {β : Type} (c : List (String × β)) : Prop :=
  (c.map Prod.fst).Nodup

/-- Modelled from the spec: the four-step matching ladder of the
Identifier Resolver, first match wins, applied to a candidate label and
a query that are already trimmed and lowercased: (1) exact equality,
(2) substring containment either direction, (3) containment after
stripping corporate stop words from both sides, (4) token overlap over
tokens of length greater than two with a matched ratio of at least one
half of the query token count. -/
def specLadderMatches (query cand : String) : Bool :=
  if cand == query then true
  else if strIncludes cand query || strIncludes query cand then true
  else
    let cc := cleanCorpWords cand
    let cq := cleanCorpWords query
    if strIncludes cc cq || strIncludes cq cc then true
    else
      let ct := fuzzyTokens cc
      let qt := fuzzyTokens cq
      let matched := qt.countP fun w => ct.any fun o => strIncludes o w || strIncludes w o
      decide (qt.length > 0) && decide (2 * matched ≥ qt.length)

/-- The acceptance test of the Purva option loop as a predicate on one
option: a present nonempty value and text containment of the query. -/
def purvaOptionAccept (ipoName : String) (o : DropOption) : Bool :=
  match o.value with
  | none => false
  | some v => v != "" && strIncludes (jsTrimLower o.text) (jsToLower ipoName)

/-- The acceptance test of the MUFG company loop as a predicate on one
entry: nonempty name and id and the MUFG match test. -/
def mufgEntryAccept (search : String) (c : MufgCompany) : Bool :=
  c.companyName != "" && c.companyId != "" && mufgCompanyMatch search c.companyName

/-- A key fixture with provable injectivity, used to instantiate the
capacity theorem on a cache of MAX_CACHE_SIZE concrete entries. -/
def natKey (i : Nat) : String :=
  String.mk (List.replicate i 'a')

/-- A concrete cache holding MAX_CACHE_SIZE entries with pairwise
distinct keys and strictly increasing timestamps. -/
def fullCache : Cache :=
  (List.range MAX_CACHE_SIZE).map fun i => (natKey i, ⟨none, (i : Int)⟩)

/-! ## Association list lemmas -/

theorem mapGet_eq_none_iff {β : Type} (c : List (String × β)) (k : String) :
    mapGet c k = none ↔ ∀ p ∈ c, p.1 ≠ k := by
  induction c with
  | nil => simp [mapGet]
  | cons hd tl ih =>
    obtain ⟨k', e⟩ := hd
    by_cases h : k' = k
    · subst h
      simp [mapGet]
    · simp [mapGet, h, ih]

theorem mem_of_mapGet_eq_some {β : Type} {c : List (String × β)} {k : String} {e : β}
    (h : mapGet c k = some e) : (k, e) ∈ c := by
  induction c with
  | nil => simp [mapGet] at h
  | cons hd tl ih =>
    obtain ⟨k', e'⟩ := hd
    by_cases hk : k' = k
    · subst hk
      simp [mapGet] at h
      subst h
      exact List.mem_cons_self _ _
    · simp [mapGet, hk] at h
      exact List.mem_cons_of_mem _ (ih h)

theorem mapGet_isSome_of_mem {β : Type} {c : List (String × β)} {k : String} {e : β}
    (h : (k, e) ∈ c) : (mapGet c k).isSome := by
  induction c with
  | nil => simp at h
  | cons hd tl ih =>
    obtain ⟨k', e'⟩ := hd
    by_cases hk : k' = k
    · simp [mapGet, hk]
    · simp [mapGet, hk]
      rcases List.mem_cons.mp h with heq | hmem
      · exact absurd (congrArg Prod.fst heq).symm hk
      · exact ih hmem

theorem mapGet_eq_some_of_mem_nodup {β : Type} {c : List (String × β)} {k : String} {e : β}
    (hnd : keysNodup c) (h : (k, e) ∈ c) : mapGet c k = some e := by
  induction c with
  | nil => simp at h
  | cons hd tl ih =>
    obtain ⟨k', e'⟩ := hd
    have hnd' : keysNodup tl := (List.nodup_cons.mp hnd).2
    rcases List.mem_cons.mp h with heq | hmem
    · obtain ⟨h1, h2⟩ := Prod.mk.injEq .. ▸ heq.symm
      simp [mapGet, h1.symm, h2]
    · by_cases hk : k' = k
      · exfalso
        subst hk
        have : k' ∈ tl.map Prod.fst := List.mem_map_of_mem Prod.fst hmem
        exact (List.nodup_cons.mp hnd).1 this
      · simpa [mapGet, hk] using ih hnd' hmem

theorem keyAbsent_mapSet_eq_append {β : Type} {c : List (String × β)} {k : String}
    (h : mapGet c k = none) (e : β) : mapSet c k e = c ++ [(k, e)] := by
  induction c with
  | nil => simp [mapSet]
  | cons hd tl ih =>
    obtain ⟨k', e'⟩ := hd
    by_cases hk : k' = k
    · subst hk
      simp [mapGet] at h
    · simp [mapGet, hk] at h
      simp [mapSet, hk, ih h]

theorem mapGet_mapSet_self {β : Type} (c : List (String × β)) (k : String) (e : β) :
    mapGet (mapSet c k e) k = some e := by
  induction c with
  | nil => simp [mapSet, mapGet]
  | cons hd tl ih =>
    obtain ⟨k', e'⟩ := hd
    by_cases hk : k' = k
    · subst hk
      simp [mapSet, mapGet]
    · simp [mapSet, mapGet, hk, ih]

theorem mem_mapSet_elim {β : Type} {c : List (String × β)} {k : String} {e : β}
    {x : String × β} (h : x ∈ mapSet c k e) : x ∈ c ∨ x = (k, e) := by
  induction c with
  | nil => simp [mapSet] at h; simp [h]
  | cons hd tl ih =>
    obtain ⟨k', e'⟩ := hd
    by_cases hk : k' = k
    · subst hk
      simp [mapSet] at h
      rcases h with h | h
      · right; simp [h]
      · left; exact List.mem_cons_of_mem _ h
    · simp [mapSet, hk] at h
      rcases h with h | h
      · left; simp [h]
      · rcases ih h with h1 | h1
        · left; exact List.mem_cons_of_mem _ h1
        · right; exact h1

theorem length_mapSet_le {β : Type} (c : List (String × β)) (k : String) (e : β) :
    (mapSet c k e).length ≤ c.length + 1 := by
  induction c with
  | nil => simp [mapSet]
  | cons hd tl ih =>
    obtain ⟨k', e'⟩ := hd
    by_cases hk : k' = k
    · simp [mapSet, hk]
    · simp only [mapSet, if_neg hk, List.length_cons]
      omega

theorem keysNodup_mapSet {β : Type} {c : List (String × β)} (hnd : keysNodup c)
    (k : String) (e : β) : keysNodup (mapSet c k e) := by
  induction c with
  | nil => simp [mapSet, keysNodup]
  | cons hd tl ih =>
    obtain ⟨k', e'⟩ := hd
    have hnd1 := (List.nodup_cons.mp hnd).1
    have hnd2 : keysNodup tl := (List.nodup_cons.mp hnd).2
    by_cases hk : k' = k
    · subst hk
      simpa [mapSet, keysNodup] using hnd
    · simp only [mapSet, if_neg hk, keysNodup, List.map_cons, List.nodup_cons]
      constructor
      · intro hmem
        rcases List.mem_map.mp hmem with ⟨p, hp, hfst⟩
        rcases mem_mapSet_elim hp with h1 | h1
        · exact hnd1 (List.mem_map.mpr ⟨p, h1, hfst⟩)
        · apply hk
          rw [← hfst, h1]
      · exact ih hnd2

theorem mapGet_mapDelete_ne {β : Type} (c : List (String × β)) {k k' : String}
    (h : k' ≠ k) : mapGet (mapDelete c k) k' = mapGet c k' := by
  induction c with
  | nil => simp [mapDelete]
  | cons hd tl ih =>
    obtain ⟨k0, e0⟩ := hd
    by_cases hk : k0 = k
    · subst hk
      have hne : ¬ (k0 = k') := fun hh => h hh.symm
      simp [mapDelete, mapGet, hne]
    · by_cases hk' : k0 = k'
      · subst hk'
        simp [mapDelete, hk, mapGet]
      · simp [mapDelete, hk, mapGet, hk', ih]

theorem mapGet_mapDelete_self {β : Type} {c : List (String × β)} (hnd : keysNodup c)
    (k : String) : mapGet (mapDelete c k) k = none := by
  induction c with
  | nil => simp [mapDelete, mapGet]
  | cons hd tl ih =>
    obtain ⟨k0, e0⟩ := hd
    have hnd1 := (List.nodup_cons.mp hnd).1
    have hnd2 : keysNodup tl := (List.nodup_cons.mp hnd).2
    by_cases hk : k0 = k
    · subst hk
      simp only [mapDelete, if_pos rfl]
      rw [mapGet_eq_none_iff]
      intro p hp hpk
      exact hnd1 (List.mem_map.mpr ⟨p, hp, hpk⟩)
    · simp [mapDelete, hk, mapGet, ih hnd2]

theorem length_mapDelete_of_isSome {β : Type} {c : List (String × β)} {k : String}
    (h : (mapGet c k).isSome) : (mapDelete c k).length + 1 = c.length := by
  induction c with
  | nil => simp [mapGet] at h
  | cons hd tl ih =>
    obtain ⟨k0, e0⟩ := hd
    by_cases hk : k0 = k
    · simp [mapDelete, hk]
    · simp only [mapGet, if_neg hk] at h
      simp only [mapDelete, if_neg hk, List.length_cons]
      have := ih h
      omega

theorem mem_mapDelete_imp {β : Type} {c : List (String × β)} {k : String}
    {x : String × β} (h : x ∈ mapDelete c k) : x ∈ c := by
  induction c with
  | nil => simp [mapDelete] at h
  | cons hd tl ih =>
    obtain ⟨k0, e0⟩ := hd
    by_cases hk : k0 = k
    · subst hk
      simp only [mapDelete, if_pos rfl] at h
      exact List.mem_cons_of_mem _ h
    · simp only [mapDelete, if_neg hk] at h
      rcases List.mem_cons.mp h with h1 | h1
      · simp [h1]
      · exact List.mem_cons_of_mem _ (ih h1)


theorem keysNodup_mapDelete {β : Type} {c : List (String × β)} (hnd : keysNodup c)
    (k : String) : keysNodup (mapDelete c k) := by
  induction c with
  | nil => simpa [mapDelete] using hnd
  | cons hd tl ih =>
    obtain ⟨k0, e0⟩ := hd
    have hnd1 := (List.nodup_cons.mp hnd).1
    have hnd2 : keysNodup tl := (List.nodup_cons.mp hnd).2
    by_cases hk : k0 = k
    · subst hk
      simpa [mapDelete] using hnd2
    · simp only [mapDelete, if_neg hk, keysNodup, List.map_cons, List.nodup_cons]
      refine ⟨?_, ih hnd2⟩
      intro hmem
      rcases List.mem_map.mp hmem with ⟨p, hp, hfst⟩
      exact hnd1 (List.mem_map.mpr ⟨p, mem_mapDelete_imp hp, hfst⟩)

/-! ## Cleanup lemmas -/

theorem tsLe_trans (a b c : String × CacheEntry)
    (h1 : (decide (a.2.timestamp ≤ b.2.timestamp)) = true)
    (h2 : (decide (b.2.timestamp ≤ c.2.timestamp)) = true) :
    (decide (a.2.timestamp ≤ c.2.timestamp)) = true := by
  simp only [decide_eq_true_eq] at *
  omega

theorem tsLe_total (a b : String × CacheEntry) :
    ((decide (a.2.timestamp ≤ b.2.timestamp)) ||
      (decide (b.2.timestamp ≤ a.2.timestamp))) = true := by
  simp only [Bool.or_eq_true, decide_eq_true_eq]
  omega

theorem mapGet_foldl_mapDelete_ne {β : Type} (ks : List (String × β))
    (c : List (String × β)) (k : String) (h : ∀ p ∈ ks, p.1 ≠ k) :
    mapGet (ks.foldl (fun acc kv => mapDelete acc kv.1) c) k = mapGet c k := by
  induction ks generalizing c with
  | nil => rfl
  | cons hd tl ih =>
    simp only [List.foldl_cons]
    rw [ih (mapDelete c hd.1) (fun p hp => h p (List.mem_cons_of_mem _ hp))]
    exact mapGet_mapDelete_ne c (Ne.symm (h hd (List.mem_cons_self _ _)))

theorem length_foldl_mapDelete {β : Type} (ks : List (String × β))
    (c : List (String × β)) (hks : (ks.map Prod.fst).Nodup)
    (hpres : ∀ p ∈ ks, (mapGet c p.1).isSome) (hc : keysNodup c) :
    (ks.foldl (fun acc kv => mapDelete acc kv.1) c).length + ks.length = c.length := by
  induction ks generalizing c with
  | nil => simp
  | cons hd tl ih =>
    simp only [List.foldl_cons, List.length_cons]
    have hdel : (mapDelete c hd.1).length + 1 = c.length :=
      length_mapDelete_of_isSome (hpres hd (List.mem_cons_self _ _))
    have hks' : (tl.map Prod.fst).Nodup := (List.nodup_cons.mp hks).2
    have hhd : hd.1 ∉ tl.map Prod.fst := (List.nodup_cons.mp hks).1
    have hpres' : ∀ p ∈ tl, (mapGet (mapDelete c hd.1) p.1).isSome := by
      intro p hp
      have hne : p.1 ≠ hd.1 := by
        intro contra
        exact hhd (contra ▸ List.mem_map.mpr ⟨p, hp, rfl⟩)
      rw [mapGet_mapDelete_ne c hne]
      exact hpres p (List.mem_cons_of_mem _ hp)
    have := ih (mapDelete c hd.1) hks' hpres' (keysNodup_mapDelete hc hd.1)
    omega

theorem keysNodup_filter (c : Cache) (p : String × CacheEntry → Bool)
    (hnd : keysNodup c) : keysNodup (c.filter p) := by
  unfold keysNodup at *
  exact List.Nodup.sublist (List.Sublist.map Prod.fst (List.filter_sublist c)) hnd

/-- After any cleanup, a cache with distinct keys holds at most
MAX_CACHE_SIZE entries. -/
theorem cleanupCache_length_le (c : Cache) (now : Int) (hnd : keysNodup c) :
    (cleanupCache c now).length ≤ MAX_CACHE_SIZE := by
  have hcc : cleanupCache c now =
      (if (c.filter fun kv => !(decide (now - kv.2.timestamp > CACHE_DURATION))).length > MAX_CACHE_SIZE then
        (((c.filter fun kv => !(decide (now - kv.2.timestamp > CACHE_DURATION))).mergeSort
            fun a b => a.2.timestamp ≤ b.2.timestamp).take
          ((c.filter fun kv => !(decide (now - kv.2.timestamp > CACHE_DURATION))).length - MAX_CACHE_SIZE)).foldl
          (fun acc kv => mapDelete acc kv.1)
          (c.filter fun kv => !(decide (now - kv.2.timestamp > CACHE_DURATION)))
       else (c.filter fun kv => !(decide (now - kv.2.timestamp > CACHE_DURATION)))) := rfl
  set F := c.filter fun kv => !(decide (now - kv.2.timestamp > CACHE_DURATION)) with hF
  have hFnd : keysNodup F := keysNodup_filter c _ hnd
  by_cases hbig : F.length > MAX_CACHE_SIZE
  · rw [hcc, if_pos hbig]
    set sorted := F.mergeSort (fun a b => a.2.timestamp ≤ b.2.timestamp) with hsorted
    set ks := sorted.take (F.length - MAX_CACHE_SIZE) with hks
    have hperm : List.Perm sorted F := List.mergeSort_perm F _
    have hkslen : ks.length = F.length - MAX_CACHE_SIZE := by
      rw [hks, List.length_take, hperm.length_eq]
      omega
    have hksnd : (ks.map Prod.fst).Nodup := by
      have h1 : (sorted.map Prod.fst).Nodup := ((hperm.map Prod.fst).nodup_iff).mpr hFnd
      exact h1.sublist ((sorted.take_sublist _).map Prod.fst)
    have hkspres : ∀ p ∈ ks, (mapGet F p.1).isSome := by
      intro p hp
      have hmem : p ∈ F := hperm.mem_iff.mp ((sorted.take_sublist _).mem hp)
      obtain ⟨k0, e0⟩ := p
      exact mapGet_isSome_of_mem hmem
    have := length_foldl_mapDelete ks F hksnd hkspres hFnd
    omega
  · rw [hcc, if_neg hbig]
    omega

/-- A freshly written entry survives its cleanup: with distinct keys, at
most one entry over capacity, and every other entry strictly older, the
entry written at the current instant is still found afterwards. -/
theorem cleanupCache_get_fresh {c : Cache} {k : String} {e : CacheEntry} {now : Int}
    (hnd : keysNodup c) (hget : mapGet c k = some e) (hts : e.timestamp = now)
    (hothers : ∀ p ∈ c, p.1 ≠ k → p.2.timestamp < now)
    (hlen : c.length ≤ MAX_CACHE_SIZE + 1) :
    mapGet (cleanupCache c now) k = some e := by
  have hcc : cleanupCache c now =
      (if (c.filter fun kv => !(decide (now - kv.2.timestamp > CACHE_DURATION))).length > MAX_CACHE_SIZE then
        (((c.filter fun kv => !(decide (now - kv.2.timestamp > CACHE_DURATION))).mergeSort
            fun a b => a.2.timestamp ≤ b.2.timestamp).take
          ((c.filter fun kv => !(decide (now - kv.2.timestamp > CACHE_DURATION))).length - MAX_CACHE_SIZE)).foldl
          (fun acc kv => mapDelete acc kv.1)
          (c.filter fun kv => !(decide (now - kv.2.timestamp > CACHE_DURATION)))
       else (c.filter fun kv => !(decide (now - kv.2.timestamp > CACHE_DURATION)))) := rfl
  set F := c.filter fun kv => !(decide (now - kv.2.timestamp > CACHE_DURATION)) with hF
  have hFnd : keysNodup F := keysNodup_filter c _ hnd
  have hmem : (k, e) ∈ c := mem_of_mapGet_eq_some hget
  have hkeep : (k, e) ∈ F := by
    rw [hF]
    refine List.mem_filter.mpr ⟨hmem, ?_⟩
    simp only [Bool.not_eq_true']
    rw [decide_eq_false_iff_not]
    simp only [hts]
    unfold CACHE_DURATION
    omega
  have hgetF : mapGet F k = some e := mapGet_eq_some_of_mem_nodup hFnd hkeep
  by_cases hbig : F.length > MAX_CACHE_SIZE
  · rw [hcc, if_pos hbig]
    have hFlen : F.length ≤ c.length := List.length_filter_le _ _
    have hFeq : F.length = MAX_CACHE_SIZE + 1 := by omega
    set sorted := F.mergeSort (fun a b => a.2.timestamp ≤ b.2.timestamp) with hsorted
    have hperm : List.Perm sorted F := List.mergeSort_perm F _
    have hslen : sorted.length = MAX_CACHE_SIZE + 1 := by
      rw [hperm.length_eq, hFeq]
    have htake1 : F.length - MAX_CACHE_SIZE = 1 := by omega
    obtain ⟨h0, t, hcons⟩ : ∃ h0 t, sorted = h0 :: t := by
      cases hsc : sorted with
      | nil =>
        rw [hsc] at hslen
        simp at hslen
      | cons a b => exact ⟨a, b, rfl⟩
    rw [htake1, hcons]
    simp only [List.take_succ_cons, List.take_zero, List.foldl_cons, List.foldl_nil]
    have hsortedPW : sorted.Pairwise fun a b => (decide (a.2.timestamp ≤ b.2.timestamp)) = true := by
      rw [hsorted]
      exact List.sorted_mergeSort tsLe_trans tsLe_total F
    have hne : h0.1 ≠ k := by
      intro contra
      have hh0F : h0 ∈ F := hperm.mem_iff.mp (hcons ▸ List.mem_cons_self _ _)
      have hh0get : mapGet F h0.1 = some h0.2 := mapGet_eq_some_of_mem_nodup hFnd hh0F
      rw [contra, hgetF] at hh0get
      have hh0e : h0.2 = e := Option.some.inj hh0get.symm
      have ht : ∃ y t2, t = y :: t2 := by
        cases hct : t with
        | nil =>
          rw [hcons, hct] at hslen
          simp at hslen
          unfold MAX_CACHE_SIZE at hslen
          omega
        | cons a b => exact ⟨a, b, rfl⟩
      obtain ⟨y, t2, hyt⟩ := ht
      have hley : (decide (h0.2.timestamp ≤ y.2.timestamp)) = true := by
        rw [hcons, hyt] at hsortedPW
        exact (List.pairwise_cons.mp hsortedPW).1 y (List.mem_cons_self _ _)
      have hyF : y ∈ F := hperm.mem_iff.mp (by
        rw [hcons, hyt]
        exact List.mem_cons_of_mem _ (List.mem_cons_self _ _))
      have hyc : y ∈ c := (List.mem_filter.mp (hF ▸ hyF)).1
      have hysne : y.1 ≠ k := by
        intro contra2
        have hyget : mapGet F y.1 = some y.2 := mapGet_eq_some_of_mem_nodup hFnd hyF
        rw [contra2, hgetF] at hyget
        have hye : y.2 = e := Option.some.inj hyget.symm
        have hsNodup : sorted.Nodup := (hperm.nodup_iff).mpr (hFnd.of_map)
        rw [hcons, hyt] at hsNodup
        have hh0y : h0 ≠ y := by
          have hnc := List.nodup_cons.mp hsNodup
          intro contra3
          exact hnc.1 (contra3 ▸ List.mem_cons_self _ _)
        apply hh0y
        calc h0 = (h0.1, h0.2) := rfl
        _ = (k, e) := by rw [contra, hh0e]
        _ = (y.1, y.2) := by rw [contra2, hye]
        _ = y := rfl
      have hlt : y.2.timestamp < now := hothers y hyc hysne
      simp only [decide_eq_true_eq] at hley
      rw [hh0e, hts] at hley
      omega
    rw [mapGet_mapDelete_ne F (Ne.symm hne)]
    exact hgetF
  · rw [hcc, if_neg hbig]
    exact hgetF

/-- Writing a fresh key into a full cache of unexpired, strictly older
entries makes the cleanup evict exactly the entry with the unique oldest
timestamp: the size returns to MAX_CACHE_SIZE, the oldest key is gone,
and every other key is untouched. -/
theorem cleanupCache_evict_oldest
    {c0 : Cache} {k : String} {e : CacheEntry} {now : Int} {m : String × CacheEntry}
    (hnd : keysNodup c0)
    (hlen : c0.length = MAX_CACHE_SIZE)
    (habs : mapGet c0 k = none)
    (hts : e.timestamp = now)
    (hnoexp : ∀ p ∈ c0, now - p.2.timestamp ≤ CACHE_DURATION)
    (hpast : ∀ p ∈ c0, p.2.timestamp < now)
    (hm : m ∈ c0)
    (hmin : ∀ p ∈ c0, p ≠ m → m.2.timestamp < p.2.timestamp) :
    (cleanupCache (mapSet c0 k e) now).length = MAX_CACHE_SIZE ∧
    mapGet (cleanupCache (mapSet c0 k e) now) m.1 = none ∧
    ∀ k2, k2 ≠ m.1 →
      mapGet (cleanupCache (mapSet c0 k e) now) k2 = mapGet (mapSet c0 k e) k2 := by
  set L := mapSet c0 k e with hL
  have hLapp : L = c0 ++ [(k, e)] := keyAbsent_mapSet_eq_append habs e
  have hLnd : keysNodup L := keysNodup_mapSet hnd k e
  have hLlen : L.length = MAX_CACHE_SIZE + 1 := by
    rw [hLapp, List.length_append, hlen]
    rfl
  have hFeq : (L.filter fun kv => !(decide (now - kv.2.timestamp > CACHE_DURATION))) = L := by
    apply List.filter_eq_self.mpr
    intro p hp
    rw [hLapp] at hp
    simp only [Bool.not_eq_true']
    rw [decide_eq_false_iff_not]
    rcases List.mem_append.mp hp with hp0 | hp1
    · have := hnoexp p hp0
      omega
    · have hpe : p = (k, e) := by simpa using hp1
      rw [hpe]
      simp only [hts]
      unfold CACHE_DURATION
      omega
  have hcc : cleanupCache L now =
      (if (L.filter fun kv => !(decide (now - kv.2.timestamp > CACHE_DURATION))).length > MAX_CACHE_SIZE then
        (((L.filter fun kv => !(decide (now - kv.2.timestamp > CACHE_DURATION))).mergeSort
            fun a b => a.2.timestamp ≤ b.2.timestamp).take
          ((L.filter fun kv => !(decide (now - kv.2.timestamp > CACHE_DURATION))).length - MAX_CACHE_SIZE)).foldl
          (fun acc kv => mapDelete acc kv.1)
          (L.filter fun kv => !(decide (now - kv.2.timestamp > CACHE_DURATION)))
       else (L.filter fun kv => !(decide (now - kv.2.timestamp > CACHE_DURATION)))) := rfl
  rw [hFeq] at hcc
  have hbig : L.length > MAX_CACHE_SIZE := by omega
  rw [if_pos hbig] at hcc
  have htake1 : L.length - MAX_CACHE_SIZE = 1 := by omega
  set sorted := L.mergeSort (fun a b => a.2.timestamp ≤ b.2.timestamp) with hsorted
  have hperm : List.Perm sorted L := List.mergeSort_perm L _
  have hslen : sorted.length = MAX_CACHE_SIZE + 1 := by
    rw [hperm.length_eq, hLlen]
  obtain ⟨h0, t, hcons⟩ : ∃ h0 t, sorted = h0 :: t := by
    cases hsc : sorted with
    | nil =>
      rw [hsc] at hslen
      simp at hslen
    | cons a b => exact ⟨a, b, rfl⟩
  rw [htake1, hcons] at hcc
  simp only [List.take_succ_cons, List.take_zero, List.foldl_cons, List.foldl_nil] at hcc
  have hsortedPW : sorted.Pairwise fun a b => (decide (a.2.timestamp ≤ b.2.timestamp)) = true := by
    rw [hsorted]
    exact List.sorted_mergeSort tsLe_trans tsLe_total L
  have hmL : m ∈ L := by
    rw [hLapp]
    exact List.mem_append.mpr (Or.inl hm)
  have h0m : h0 = m := by
    by_contra hnem
    have hmsorted : m ∈ sorted := hperm.mem_iff.mpr hmL
    have hmt : m ∈ t := by
      rw [hcons] at hmsorted
      rcases List.mem_cons.mp hmsorted with hh | hh
      · exact absurd hh.symm hnem
      · exact hh
    have hle : (decide (h0.2.timestamp ≤ m.2.timestamp)) = true := by
      rw [hcons] at hsortedPW
      exact (List.pairwise_cons.mp hsortedPW).1 m hmt
    simp only [decide_eq_true_eq] at hle
    have hh0L : h0 ∈ L := hperm.mem_iff.mp (hcons ▸ List.mem_cons_self _ _)
    rw [hLapp] at hh0L
    rcases List.mem_append.mp hh0L with hh0c | hh0new
    · have := hmin h0 hh0c hnem
      omega
    · have hh0e : h0 = (k, e) := by simpa using hh0new
      have hmlt : m.2.timestamp < now := hpast m hm
      rw [hh0e] at hle
      simp only [hts] at hle
      omega
  rw [h0m] at hcc
  have hmget : (mapGet L m.1).isSome := by
    have : (m.1, m.2) ∈ L := hmL
    exact mapGet_isSome_of_mem this
  refine ⟨?_, ?_, ?_⟩
  · rw [hcc]
    have := length_mapDelete_of_isSome hmget
    omega
  · rw [hcc]
    exact mapGet_mapDelete_self hLnd m.1
  · intro k2 hk2
    rw [hcc]
    exact mapGet_mapDelete_ne L hk2

/-! ## Resolver lemmas -/

/-- A fresh write into a sane cache is still readable after cleanup. -/
theorem resolver_write_survives
    {c0 : Cache} {key : String} {v : Option String} {t0 : Int}
    (hnd : keysNodup c0)
    (hpast : ∀ p ∈ c0, p.2.timestamp < t0)
    (hlen : c0.length ≤ MAX_CACHE_SIZE) :
    mapGet (cleanupCache (mapSet c0 key ⟨v, t0⟩) t0) key = some ⟨v, t0⟩ := by
  apply cleanupCache_get_fresh (keysNodup_mapSet hnd key _)
    (mapGet_mapSet_self c0 key _) rfl
  · intro p hp hpk
    rcases mem_mapSet_elim hp with h1 | h1
    · exact hpast p h1
    · exact absurd (congrArg Prod.fst h1) hpk
  · calc (mapSet c0 key ⟨v, t0⟩).length ≤ c0.length + 1 := length_mapSet_le c0 key _
    _ ≤ MAX_CACHE_SIZE + 1 := by omega

theorem getPurvaCompanyId_miss {name : String} {now : Int} {cache : Cache}
    {o : PurvaListOutcome} (habs : mapGet cache (jsLowerTrim name) = none) :
    getPurvaCompanyId name now cache o =
      match o with
      | .page opts =>
        match purvaScanOptions name opts with
        | some cid =>
          (some cid, cleanupCache (mapSet cache (jsLowerTrim name) ⟨some cid, now⟩) now, 1)
        | none =>
          (none, cleanupCache (mapSet cache (jsLowerTrim name) ⟨none, now⟩) now, 1)
      | .fail _ =>
        (none, cleanupCache (mapSet cache (jsLowerTrim name) ⟨none, now⟩) now, 1) := by
  unfold getPurvaCompanyId
  simp only [habs]

theorem getPurvaCompanyId_hit {name : String} {now : Int} {cache : Cache}
    {o : PurvaListOutcome} {e : CacheEntry}
    (hg : mapGet cache (jsLowerTrim name) = some e)
    (hfresh : now - e.timestamp < CACHE_DURATION) :
    getPurvaCompanyId name now cache o = (e.id, cache, 0) := by
  unfold getPurvaCompanyId
  simp only [hg, if_pos hfresh]

theorem getMufgCompanyId_miss {name : String} {now : Int} {cache : Cache}
    {o : MufgListOutcome} (habs : mapGet cache (jsLowerTrim name) = none) :
    getMufgCompanyId name now cache o =
      match o with
      | .page cs =>
        match mufgFindCompany (jsLowerTrim name) cs with
        | some cid =>
          (some cid, cleanupCache (mapSet cache (jsLowerTrim name) ⟨some cid, now⟩) now, 1)
        | none =>
          (none, cleanupCache (mapSet cache (jsLowerTrim name) ⟨none, now⟩) now, 1)
      | _ =>
        (none, cleanupCache (mapSet cache (jsLowerTrim name) ⟨none, now⟩) now, 1) := by
  unfold getMufgCompanyId
  simp only [habs]

theorem getMufgCompanyId_hit {name : String} {now : Int} {cache : Cache}
    {o : MufgListOutcome} {e : CacheEntry}
    (hg : mapGet cache (jsLowerTrim name) = some e)
    (hfresh : now - e.timestamp < CACHE_DURATION) :
    getMufgCompanyId name now cache o = (e.id, cache, 0) := by
  unfold getMufgCompanyId
  simp only [hg, if_pos hfresh]

theorem getBigshareCompanyId_miss {name : String} {now : Int} {cache : Cache}
    {outcomes : List BigshareUrlOutcome}
    (habs : mapGet cache (jsLowerTrim name) = none) :
    getBigshareCompanyId name now cache outcomes =
      match (bigshareTryUrls (jsLowerTrim name) outcomes).1 with
      | some cid =>
        (some cid, cleanupCache (mapSet cache (jsLowerTrim name) ⟨some cid, now⟩) now,
          (bigshareTryUrls (jsLowerTrim name) outcomes).2)
      | none =>
        (none, cleanupCache (mapSet cache (jsLowerTrim name) ⟨none, now⟩) now,
          (bigshareTryUrls (jsLowerTrim name) outcomes).2) := by
  unfold getBigshareCompanyId
  simp only [habs]

theorem getBigshareCompanyId_hit {name : String} {now : Int} {cache : Cache}
    {outcomes : List BigshareUrlOutcome} {e : CacheEntry}
    (hg : mapGet cache (jsLowerTrim name) = some e)
    (hfresh : now - e.timestamp < CACHE_DURATION) :
    getBigshareCompanyId name now cache outcomes = (e.id, cache, 0) := by
  unfold getBigshareCompanyId
  simp only [hg, if_pos hfresh]

theorem bigshareTryUrls_all_fail (s : String) (outcomes : List BigshareUrlOutcome)
    (h : ∀ o ∈ outcomes, ∃ msg, o = .fail msg) :
    bigshareTryUrls s outcomes = (none, outcomes.length) := by
  induction outcomes with
  | nil => rfl
  | cons hd tl ih =>
    obtain ⟨msg, hmsg⟩ := h hd (List.mem_cons_self _ _)
    subst hmsg
    have := ih fun o ho => h o (List.mem_cons_of_mem _ ho)
    simp [bigshareTryUrls, this]

/-- Two Purva resolutions of the same uncached name within the cache
window: the second call reads the first write back, fetches nothing, and
leaves the cache unchanged. -/
theorem purvaResolveTwice (name : String) (t0 t1 : Int) (c0 : Cache)
    (o1 o2 : PurvaListOutcome)
    (hnd : keysNodup c0) (habs : mapGet c0 (jsLowerTrim name) = none)
    (hpast : ∀ p ∈ c0, p.2.timestamp < t0)
    (hlen : c0.length ≤ MAX_CACHE_SIZE)
    (hwin : t1 - t0 < CACHE_DURATION) :
    (getPurvaCompanyId name t1 (getPurvaCompanyId name t0 c0 o1).2.1 o2).1 =
      (getPurvaCompanyId name t0 c0 o1).1 ∧
    (getPurvaCompanyId name t1 (getPurvaCompanyId name t0 c0 o1).2.1 o2).2.1 =
      (getPurvaCompanyId name t0 c0 o1).2.1 ∧
    (getPurvaCompanyId name t0 c0 o1).2.2 +
      (getPurvaCompanyId name t1 (getPurvaCompanyId name t0 c0 o1).2.1 o2).2.2 ≤ 1 := by
  rw [getPurvaCompanyId_miss habs]
  have hsurv : ∀ v : Option String,
      mapGet (cleanupCache (mapSet c0 (jsLowerTrim name) ⟨v, t0⟩) t0) (jsLowerTrim name) =
        some ⟨v, t0⟩ :=
    fun v => resolver_write_survives hnd hpast hlen
  cases o1 with
  | fail msg =>
    simp only
    rw [getPurvaCompanyId_hit (hsurv none) (by simpa using hwin)]
    exact ⟨rfl, rfl, by simp⟩
  | page opts =>
    cases hscan : purvaScanOptions name opts with
    | none =>
      simp only [hscan]
      rw [getPurvaCompanyId_hit (hsurv none) (by simpa using hwin)]
      exact ⟨rfl, rfl, by simp⟩
    | some cid =>
      simp only [hscan]
      rw [getPurvaCompanyId_hit (hsurv (some cid)) (by simpa using hwin)]
      exact ⟨rfl, rfl, by simp⟩

/-- Two MUFG resolutions of the same uncached name within the cache
window: the second call reads the first write back and fetches nothing. -/
theorem mufgResolveTwice (name : String) (t0 t1 : Int) (c0 : Cache)
    (o1 o2 : MufgListOutcome)
    (hnd : keysNodup c0) (habs : mapGet c0 (jsLowerTrim name) = none)
    (hpast : ∀ p ∈ c0, p.2.timestamp < t0)
    (hlen : c0.length ≤ MAX_CACHE_SIZE)
    (hwin : t1 - t0 < CACHE_DURATION) :
    (getMufgCompanyId name t1 (getMufgCompanyId name t0 c0 o1).2.1 o2).1 =
      (getMufgCompanyId name t0 c0 o1).1 ∧
    (getMufgCompanyId name t1 (getMufgCompanyId name t0 c0 o1).2.1 o2).2.1 =
      (getMufgCompanyId name t0 c0 o1).2.1 ∧
    (getMufgCompanyId name t0 c0 o1).2.2 +
      (getMufgCompanyId name t1 (getMufgCompanyId name t0 c0 o1).2.1 o2).2.2 ≤ 1 := by
  rw [getMufgCompanyId_miss habs]
  have hsurv : ∀ v : Option String,
      mapGet (cleanupCache (mapSet c0 (jsLowerTrim name) ⟨v, t0⟩) t0) (jsLowerTrim name) =
        some ⟨v, t0⟩ :=
    fun v => resolver_write_survives hnd hpast hlen
  cases o1 with
  | fail msg =>
    simp only
    rw [getMufgCompanyId_hit (hsurv none) (by simpa using hwin)]
    exact ⟨rfl, rfl, by simp⟩
  | noData =>
    simp only
    rw [getMufgCompanyId_hit (hsurv none) (by simpa using hwin)]
    exact ⟨rfl, rfl, by simp⟩
  | page cs =>
    cases hscan : mufgFindCompany (jsLowerTrim name) cs with
    | none =>
      simp only [hscan]
      rw [getMufgCompanyId_hit (hsurv none) (by simpa using hwin)]
      exact ⟨rfl, rfl, by simp⟩
    | some cid =>
      simp only [hscan]
      rw [getMufgCompanyId_hit (hsurv (some cid)) (by simpa using hwin)]
      exact ⟨rfl, rfl, by simp⟩

/-- Two BigShare resolutions of the same uncached name within the cache
window: the second call reads the first write back and performs zero
outbound fetch attempts. -/
theorem bigshareResolveTwice (name : String) (t0 t1 : Int) (c0 : Cache)
    (os1 os2 : List BigshareUrlOutcome)
    (hnd : keysNodup c0) (habs : mapGet c0 (jsLowerTrim name) = none)
    (hpast : ∀ p ∈ c0, p.2.timestamp < t0)
    (hlen : c0.length ≤ MAX_CACHE_SIZE)
    (hwin : t1 - t0 < CACHE_DURATION) :
    (getBigshareCompanyId name t1 (getBigshareCompanyId name t0 c0 os1).2.1 os2).1 =
      (getBigshareCompanyId name t0 c0 os1).1 ∧
    (getBigshareCompanyId name t1 (getBigshareCompanyId name t0 c0 os1).2.1 os2).2.1 =
      (getBigshareCompanyId name t0 c0 os1).2.1 ∧
    (getBigshareCompanyId name t1 (getBigshareCompanyId name t0 c0 os1).2.1 os2).2.2 = 0 := by
  rw [getBigshareCompanyId_miss habs]
  have hsurv : ∀ v : Option String,
      mapGet (cleanupCache (mapSet c0 (jsLowerTrim name) ⟨v, t0⟩) t0) (jsLowerTrim name) =
        some ⟨v, t0⟩ :=
    fun v => resolver_write_survives hnd hpast hlen
  cases hres : (bigshareTryUrls (jsLowerTrim name) os1).1 with
  | none =>
    simp only [hres]
    rw [getBigshareCompanyId_hit (hsurv none) (by simpa using hwin)]
    exact ⟨rfl, rfl, rfl⟩
  | some cid =>
    simp only [hres]
    rw [getBigshareCompanyId_hit (hsurv (some cid)) (by simpa using hwin)]
    exact ⟨rfl, rfl, rfl⟩

/-! ## Dispatcher lemmas -/

theorem foldl_push_eq_map {α β : Type} (g : α → β) (l : List α) (init : List β) :
    l.foldl (fun acc x => acc ++ [g x]) init = init ++ l.map g := by
  induction l generalizing init with
  | nil => simp
  | cons hd tl ih =>
    simp only [List.foldl_cons, List.map_cons]
    rw [ih]
    simp

theorem checkAllRegistrars_eq_map (behave : RegistrarType → Except String IPOAllotmentResponse) :
    checkAllRegistrars behave = registrarOrder.map fun r =>
      match behave r with
      | .ok res => res
      | .error msg => mkDispatchError r msg := by
  unfold checkAllRegistrars
  have hfun : (fun (results : List IPOAllotmentResponse) r =>
      match behave r with
      | .ok res => results ++ [res]
      | .error msg => results ++ [mkDispatchError r msg]) =
      fun (results : List IPOAllotmentResponse) r => results ++
        [match behave r with
         | .ok res => res
         | .error msg => mkDispatchError r msg] := by
    funext results r
    cases behave r <;> rfl
  rw [hfun, foldl_push_eq_map]
  simp

/-- Claim C1: the all-registrars dispatch returns exactly one result per
configured RegistrarId, in the fixed configuration-table order bigshare,
kfintech, linkintime, skyline, cameo, mas, maashitla, beetal, purva,
mufg, regardless of how many checkers fail; a checker that throws
contributes that registrar Error-status entry instead of aborting the
loop.  The behaviour of each checker on the current request is abstracted
by behave; the hypothesis states that a normally returning checker tags
its own registrar, which holds for every checker in the table. -/
theorem claim_C1_checkAll_one_result_per_registrar
    (behave : RegistrarType → Except String IPOAllotmentResponse)
    (hreg : ∀ r res, behave r = .ok res → res.registrar = registrarName r) :
    (checkAllRegistrars behave).length = 10 ∧
    (checkAllRegistrars behave).map (fun res => res.registrar) =
      registrarOrder.map registrarName ∧
    ∀ (i : Nat) (r : RegistrarType) (msg : String),
      registrarOrder[i]? = some r → behave r = .error msg →
      (checkAllRegistrars behave)[i]? = some (mkDispatchError r msg) := by
  rw [checkAllRegistrars_eq_map]
  refine ⟨?_, ?_, ?_⟩
  · simp [registrarOrder]
  · rw [List.map_map]
    apply List.map_congr_left
    intro r hr
    simp only [Function.comp_apply]
    cases hb : behave r with
    | ok res => exact hreg r res hb
    | error msg => rfl
  · intro i r msg hOrd hErr
    rw [List.getElem?_map, hOrd]
    simp [hErr]

/-- Witness for claim C1 at a concrete behaviour where the kfintech
checker throws and every other checker returns normally. -/
theorem claim_C1_witness :
    (checkAllRegistrars fun r =>
      if r = RegistrarType.kfintech then Except.error "boom"
      else Except.ok { success := true, registrar := registrarName r, raw := none,
                       status := "unknown" }).length = 10 ∧
    (checkAllRegistrars fun r =>
      if r = RegistrarType.kfintech then Except.error "boom"
      else Except.ok { success := true, registrar := registrarName r, raw := none,
                       status := "unknown" })[1]? =
      some (mkDispatchError RegistrarType.kfintech "boom") := by
  have h := claim_C1_checkAll_one_result_per_registrar
    (fun r =>
      if r = RegistrarType.kfintech then Except.error "boom"
      else Except.ok { success := true, registrar := registrarName r, raw := none,
                       status := "unknown" })
    (by
      intro r res hres
      cases r <;> first
        | (injection hres with h; subst h; rfl)
        | simp at hres)
  exact ⟨h.1, h.2.2 1 RegistrarType.kfintech "boom" rfl (by simp)⟩

/-! ## Status taxonomy lemmas -/

theorem purvaClassify_cases (rows : List (List String)) :
    purvaClassify rows = "Allotted" ∨ purvaClassify rows = "Not Allotted" := by
  unfold purvaClassify
  dsimp only
  split
  · exact Or.inl rfl
  · exact Or.inr rfl

/-- Every status the embedded Purva checker can produce maps into the
closed StatusKind set. -/
theorem checkPurva_status_in_closed_set (ipoName panNo : String) (now : Int)
    (cache : Cache) (csrfPage : Except String (Option String))
    (listing : PurvaListOutcome)
    (post : Except String (List (List (List String)))) :
    (statusKindOf (checkPurva ipoName panNo now cache csrfPage listing post).1.status).isSome := by
  unfold checkPurva
  rcases csrfPage with msg | copt
  · simp [purvaErrorResp, statusKindOf]
  · rcases copt with _ | csrf
    · simp [purvaErrorResp, statusKindOf]
    · by_cases hcsrf : (csrf == "") = true
      · simp [hcsrf, purvaErrorResp, statusKindOf]
      · simp only [hcsrf, Bool.false_eq_true, if_false]
        rcases post with msg | tables
        · simp [purvaErrorResp, statusKindOf]
        · rcases htab : tables.head? with _ | rows
          · simp [htab, statusKindOf]
          · by_cases hrc : rows.length ≤ 1
            · simp [htab, hrc, statusKindOf]
            · rcases purvaClassify_cases rows with hcl | hcl <;>
                simp [htab, hrc, hcl, statusKindOf]

/-- Counterexample to claim C2: on a successful fetch the generic HTML
checker (here for skyline) produces the status parse_needed, which is
outside the closed StatusKind set. -/
theorem claim_C2_counterexample :
    (checkHtmlRegistrar RegistrarType.skyline (Except.ok ())).status = "parse_needed" ∧
    statusKindOf (checkHtmlRegistrar RegistrarType.skyline (Except.ok ())).status = none := by
  exact ⟨rfl, rfl⟩

/-- Claim C2 as amended: every result status is a nonempty string, but
the closed-set guarantee fails for the generic HTML checker family, whose
successful results carry the status parse_needed, a value outside the
closed StatusKind set; bespoke checkers such as Purva do stay inside the
closed set. -/
theorem claim_C2_amended_status_not_closed :
    (∀ (r : RegistrarType) (oc : Except String Unit),
      (checkHtmlRegistrar r oc).status ≠ "" ∧
      ((checkHtmlRegistrar r oc).status = "parse_needed" ∨
        (checkHtmlRegistrar r oc).status = "error")) ∧
    statusKindOf "parse_needed" = none ∧
    (∀ (ipoName panNo : String) (now : Int) (cache : Cache)
      (csrfPage : Except String (Option String)) (listing : PurvaListOutcome)
      (post : Except String (List (List (List String)))),
      (statusKindOf (checkPurva ipoName panNo now cache csrfPage listing post).1.status).isSome) := by
  refine ⟨?_, rfl, checkPurva_status_in_closed_set⟩
  intro r oc
  rcases oc with msg | u
  · exact ⟨by simp [checkHtmlRegistrar], Or.inr rfl⟩
  · exact ⟨by simp [checkHtmlRegistrar], Or.inl rfl⟩

/-! ## Matching ladder lemmas -/

/-- The BigShare option match test is exactly the four-step ladder of the
specification. -/
theorem bigshareOptionMatch_eq_ladder (s t : String) :
    bigshareOptionMatch s t = specLadderMatches s t := by
  unfold bigshareOptionMatch specLadderMatches
  by_cases h1 : (t == s) = true
  · simp [h1]
  · have h1f : (t == s) = false := by simpa using h1
    by_cases h2 : (strIncludes t s || strIncludes s t) = true
    · simp [h1f, h2]
    · have h2f : (strIncludes t s || strIncludes s t) = false := by simpa using h2
      by_cases h3 : (strIncludes (cleanCorpWords t) (cleanCorpWords s) ||
          strIncludes (cleanCorpWords s) (cleanCorpWords t)) = true
      · simp [h1f, h2f, h3]
      · have h3f : (strIncludes (cleanCorpWords t) (cleanCorpWords s) ||
            strIncludes (cleanCorpWords s) (cleanCorpWords t)) = false := by simpa using h3
        simp [h1f, h2f, h3f]

/-- The Purva option loop accepts the first option passing its one-step
containment test. -/
theorem purvaScanOptions_eq_find (ipoName : String) (opts : List DropOption) :
    purvaScanOptions ipoName opts =
      (opts.find? (purvaOptionAccept ipoName)).bind DropOption.value := by
  induction opts with
  | nil => rfl
  | cons o rest ih =>
    cases hv : o.value with
    | none =>
      have hacc : ¬ purvaOptionAccept ipoName o = true := by
        unfold purvaOptionAccept
        rw [hv]
        simp
      have hL : purvaScanOptions ipoName (o :: rest) = purvaScanOptions ipoName rest := by
        simp only [purvaScanOptions, hv]
      rw [hL, List.find?_cons_of_neg _ hacc, ih]
    | some v =>
      by_cases hc : (v != "" && strIncludes (jsTrimLower o.text) (jsToLower ipoName)) = true
      · have hacc : purvaOptionAccept ipoName o = true := by
          unfold purvaOptionAccept
          rw [hv]
          exact hc
        have hL : purvaScanOptions ipoName (o :: rest) = some v := by
          simp only [purvaScanOptions, hv, if_pos hc]
        rw [hL, List.find?_cons_of_pos _ hacc]
        simp [hv]
      · have hacc : ¬ purvaOptionAccept ipoName o = true := by
          unfold purvaOptionAccept
          rw [hv]
          exact hc
        have hL : purvaScanOptions ipoName (o :: rest) = purvaScanOptions ipoName rest := by
          simp only [purvaScanOptions, hv, if_neg hc]
        rw [hL, List.find?_cons_of_neg _ hacc, ih]

/-- The MUFG company loop accepts the first nonempty entry passing its
containment test. -/
theorem mufgFindCompany_eq_find (search : String) (cs : List MufgCompany) :
    mufgFindCompany search cs =
      (cs.find? (mufgEntryAccept search)).map MufgCompany.companyId := by
  induction cs with
  | nil => rfl
  | cons c rest ih =>
    by_cases hskip : (c.companyName == "" || c.companyId == "") = true
    · have hacc : ¬ mufgEntryAccept search c = true := by
        unfold mufgEntryAccept
        rcases Bool.or_eq_true_iff.mp hskip with h | h <;> simp_all
      have h1 : mufgFindCompany search (c :: rest) = mufgFindCompany search rest := by
        simp only [mufgFindCompany, if_pos hskip]
      rw [h1, List.find?_cons_of_neg _ hacc, ih]
    · have hskipf : (c.companyName == "" || c.companyId == "") = false := by
        simpa using hskip
      by_cases hm : mufgCompanyMatch search c.companyName = true
      · have hacc : mufgEntryAccept search c = true := by
          unfold mufgEntryAccept
          simp_all
        rw [List.find?_cons_of_pos _ hacc]
        have h1 : mufgFindCompany search (c :: rest) = some c.companyId := by
          simp only [mufgFindCompany, if_neg (by simp [hskipf] : ¬ (c.companyName == "" || c.companyId == "") = true), if_pos hm]
        rw [h1]
        rfl
      · have hmf : mufgCompanyMatch search c.companyName = false := by simpa using hm
        have hacc : ¬ mufgEntryAccept search c = true := by
          unfold mufgEntryAccept
          simp [hmf]
        have h1 : mufgFindCompany search (c :: rest) = mufgFindCompany search rest := by
          simp only [mufgFindCompany,
            if_neg (by simp [hskipf] : ¬ (c.companyName == "" || c.companyId == "") = true),
            if_neg (by simp [hmf] : ¬ mufgCompanyMatch search c.companyName = true)]
        rw [h1, List.find?_cons_of_neg _ hacc, ih]

/-- Counterexample to claim C5: the three listing sources do not share
one matching ladder.  On the candidate text ABC the BigShare scan accepts
the query abc industries limited through the substring step, while the
Purva scan rejects it because Purva only tests whether the candidate text
contains the query; likewise the token-overlap step accepts alpha beta
delta for the query alpha beta gamma on BigShare while the MUFG matcher
rejects it. -/
theorem claim_C5_counterexample :
    bigshareScanOptions "abc industries limited" [⟨some "1", "ABC"⟩] = some "1" ∧
    purvaScanOptions "abc industries limited" [⟨some "1", "ABC"⟩] = none ∧
    bigshareScanOptions "alpha beta gamma" [⟨some "9", "Alpha Beta Delta"⟩] = some "9" ∧
    mufgFindCompany "alpha beta gamma" [⟨"Alpha Beta Delta", "9"⟩] = none := by
  refine ⟨?_, ?_, ?_, ?_⟩ <;> decide

/-- Claim C5 as amended: only the BigShare source applies the four-step
ladder; the Purva source accepts the first option whose value is nonempty
and whose text contains the query; the MUFG source accepts the first
nonempty entry matching by direct or alphanumeric-normalized substring
containment.  All comparisons are case-insensitive. -/
theorem claim_C5_amended_per_source_matching :
    (∀ s t, bigshareOptionMatch s t = specLadderMatches s t) ∧
    (∀ ipoName opts, purvaScanOptions ipoName opts =
      (opts.find? (purvaOptionAccept ipoName)).bind DropOption.value) ∧
    (∀ search cs, mufgFindCompany search cs =
      (cs.find? (mufgEntryAccept search)).map MufgCompany.companyId) :=
  ⟨bigshareOptionMatch_eq_ladder, purvaScanOptions_eq_find, mufgFindCompany_eq_find⟩

/-! ## Cache fixture lemmas -/

theorem natKey_injective : Function.Injective natKey := by
  intro i j h
  have hd : List.replicate i 'a' = List.replicate j 'a' :=
    congrArg String.data h
  have hl := congrArg List.length hd
  simpa using hl

theorem fullCache_keysNodup : keysNodup fullCache := by
  unfold keysNodup fullCache
  rw [List.map_map]
  have hcomp : (Prod.fst ∘ fun i =>
      ((natKey i), (⟨none, (i : Int)⟩ : CacheEntry))) = natKey := rfl
  rw [hcomp]
  exact (List.nodup_range _).map natKey_injective

theorem fullCache_length : fullCache.length = MAX_CACHE_SIZE := by
  simp [fullCache]

theorem fullCache_mem {p : String × CacheEntry} (hp : p ∈ fullCache) :
    ∃ i, i < MAX_CACHE_SIZE ∧ p = (natKey i, ⟨none, (i : Int)⟩) := by
  unfold fullCache at hp
  rcases List.mem_map.mp hp with ⟨i, hi, hpe⟩
  exact ⟨i, List.mem_range.mp hi, hpe.symm⟩

theorem fullCache_fresh_key_absent : mapGet fullCache (natKey MAX_CACHE_SIZE) = none := by
  rw [mapGet_eq_none_iff]
  intro p hp hpk
  obtain ⟨i, hi, hpe⟩ := fullCache_mem hp
  rw [hpe] at hpk
  have := natKey_injective hpk
  omega

/-! ## Claims C3, C4 and C9: the resolution caches -/

/-- Claim C3: for each resolver, invoking the identifier resolution twice
for the same name within 24 hours performs at most one outbound listing
fetch and the second call returns the cached value unchanged, for a
successful first resolution and for a failed one alike.  The cache
hypotheses state the standing Map invariants: distinct keys, entries
inserted strictly before the first call, size within capacity, and the
name not resolved before. -/
theorem claim_C3_cache_idempotence (name : String) (t0 t1 : Int) (c0 : Cache)
    (po1 po2 : PurvaListOutcome) (mo1 mo2 : MufgListOutcome)
    (bo1 bo2 : List BigshareUrlOutcome)
    (hnd : keysNodup c0) (habs : mapGet c0 (jsLowerTrim name) = none)
    (hpast : ∀ p ∈ c0, p.2.timestamp < t0)
    (hlen : c0.length ≤ MAX_CACHE_SIZE)
    (hwin : t1 - t0 < CACHE_DURATION) :
    ((getPurvaCompanyId name t1 (getPurvaCompanyId name t0 c0 po1).2.1 po2).1 =
        (getPurvaCompanyId name t0 c0 po1).1 ∧
      (getPurvaCompanyId name t1 (getPurvaCompanyId name t0 c0 po1).2.1 po2).2.1 =
        (getPurvaCompanyId name t0 c0 po1).2.1 ∧
      (getPurvaCompanyId name t0 c0 po1).2.2 +
        (getPurvaCompanyId name t1 (getPurvaCompanyId name t0 c0 po1).2.1 po2).2.2 ≤ 1) ∧
    ((getMufgCompanyId name t1 (getMufgCompanyId name t0 c0 mo1).2.1 mo2).1 =
        (getMufgCompanyId name t0 c0 mo1).1 ∧
      (getMufgCompanyId name t1 (getMufgCompanyId name t0 c0 mo1).2.1 mo2).2.1 =
        (getMufgCompanyId name t0 c0 mo1).2.1 ∧
      (getMufgCompanyId name t0 c0 mo1).2.2 +
        (getMufgCompanyId name t1 (getMufgCompanyId name t0 c0 mo1).2.1 mo2).2.2 ≤ 1) ∧
    ((getBigshareCompanyId name t1 (getBigshareCompanyId name t0 c0 bo1).2.1 bo2).1 =
        (getBigshareCompanyId name t0 c0 bo1).1 ∧
      (getBigshareCompanyId name t1 (getBigshareCompanyId name t0 c0 bo1).2.1 bo2).2.1 =
        (getBigshareCompanyId name t0 c0 bo1).2.1 ∧
      (getBigshareCompanyId name t1 (getBigshareCompanyId name t0 c0 bo1).2.1 bo2).2.2 = 0) :=
  ⟨purvaResolveTwice name t0 t1 c0 po1 po2 hnd habs hpast hlen hwin,
   mufgResolveTwice name t0 t1 c0 mo1 mo2 hnd habs hpast hlen hwin,
   bigshareResolveTwice name t0 t1 c0 bo1 bo2 hnd habs hpast hlen hwin⟩

/-- Witness for claim C3 at a concrete empty cache, a listing page whose
option matches the name, and a second call during an outage. -/
theorem claim_C3_witness :
    (getPurvaCompanyId "acme corp" 100
        (getPurvaCompanyId "acme corp" 0 []
          (.page [⟨some "5", "Acme Corp Ltd"⟩])).2.1 (.fail "down")).1 =
      (getPurvaCompanyId "acme corp" 0 [] (.page [⟨some "5", "Acme Corp Ltd"⟩])).1 ∧
    (getPurvaCompanyId "acme corp" 0 [] (.page [⟨some "5", "Acme Corp Ltd"⟩])).2.2 +
      (getPurvaCompanyId "acme corp" 100
        (getPurvaCompanyId "acme corp" 0 []
          (.page [⟨some "5", "Acme Corp Ltd"⟩])).2.1 (.fail "down")).2.2 ≤ 1 := by
  have h := claim_C3_cache_idempotence "acme corp" 0 100 []
    (.page [⟨some "5", "Acme Corp Ltd"⟩]) (.fail "down") (.fail "x") .noData
    [.fail "a"] [] (by simp [keysNodup]) rfl (by simp) (by simp) (by decide)
  exact ⟨h.1.1, h.1.2.2⟩

/-- Claim C4: after a cleanup every cache holds at most 1000 entries, and
writing entry number 1001 into a full cache of unexpired entries evicts
exactly the single oldest entry by insertion timestamp, leaving exactly
1000 entries with every other key untouched. -/
theorem claim_C4_cache_capacity :
    (∀ (c : Cache) (now : Int), keysNodup c →
      (cleanupCache c now).length ≤ MAX_CACHE_SIZE) ∧
    (∀ (c0 : Cache) (k : String) (e : CacheEntry) (now : Int)
      (m : String × CacheEntry),
      keysNodup c0 → c0.length = MAX_CACHE_SIZE → mapGet c0 k = none →
      e.timestamp = now →
      (∀ p ∈ c0, now - p.2.timestamp ≤ CACHE_DURATION) →
      (∀ p ∈ c0, p.2.timestamp < now) →
      m ∈ c0 →
      (∀ p ∈ c0, p ≠ m → m.2.timestamp < p.2.timestamp) →
      (cleanupCache (mapSet c0 k e) now).length = MAX_CACHE_SIZE ∧
      mapGet (cleanupCache (mapSet c0 k e) now) m.1 = none ∧
      ∀ k2, k2 ≠ m.1 →
        mapGet (cleanupCache (mapSet c0 k e) now) k2 = mapGet (mapSet c0 k e) k2) :=
  ⟨cleanupCache_length_le,
   fun c0 k e now m h1 h2 h3 h4 h5 h6 h7 h8 =>
     cleanupCache_evict_oldest h1 h2 h3 h4 h5 h6 h7 h8⟩

/-- Witness for claim C4 at a concrete cache of exactly MAX_CACHE_SIZE
entries with strictly increasing timestamps: inserting one more entry
leaves the cache at capacity and evicts the key of timestamp zero. -/
theorem claim_C4_witness :
    (cleanupCache fullCache 0).length ≤ MAX_CACHE_SIZE ∧
    (cleanupCache (mapSet fullCache (natKey MAX_CACHE_SIZE)
        ⟨some "z", (MAX_CACHE_SIZE : Int)⟩) (MAX_CACHE_SIZE : Int)).length =
      MAX_CACHE_SIZE ∧
    mapGet (cleanupCache (mapSet fullCache (natKey MAX_CACHE_SIZE)
        ⟨some "z", (MAX_CACHE_SIZE : Int)⟩) (MAX_CACHE_SIZE : Int)) (natKey 0) = none := by
  have h := claim_C4_cache_capacity
  have hnoexp : ∀ p ∈ fullCache,
      (MAX_CACHE_SIZE : Int) - p.2.timestamp ≤ CACHE_DURATION := by
    intro p hp
    obtain ⟨i, hi, hpe⟩ := fullCache_mem hp
    rw [hpe]
    unfold CACHE_DURATION MAX_CACHE_SIZE
    simp only
    omega
  have hpast : ∀ p ∈ fullCache, p.2.timestamp < (MAX_CACHE_SIZE : Int) := by
    intro p hp
    obtain ⟨i, hi, hpe⟩ := fullCache_mem hp
    rw [hpe]
    simp only
    omega
  have hm : ((natKey 0, ⟨none, (0 : Int)⟩) : String × CacheEntry) ∈ fullCache := by
    unfold fullCache
    refine List.mem_map.mpr ⟨0, ?_, rfl⟩
    exact List.mem_range.mpr (by decide)
  have hmin : ∀ p ∈ fullCache,
      p ≠ ((natKey 0, ⟨none, (0 : Int)⟩) : String × CacheEntry) →
      ((0 : Int) < p.2.timestamp) := by
    intro p hp hne
    obtain ⟨i, hi, hpe⟩ := fullCache_mem hp
    rcases Nat.eq_zero_or_pos i with hz | hpos
    · exfalso
      apply hne
      rw [hpe, hz]
      rfl
    · rw [hpe]
      simp only
      omega
  have h2 := h.2 fullCache (natKey MAX_CACHE_SIZE)
    ⟨some "z", (MAX_CACHE_SIZE : Int)⟩ (MAX_CACHE_SIZE : Int)
    ((natKey 0, ⟨none, (0 : Int)⟩) : String × CacheEntry)
    fullCache_keysNodup fullCache_length fullCache_fresh_key_absent rfl
    hnoexp hpast hm hmin
  exact ⟨h.1 fullCache 0 fullCache_keysNodup, h2.1, h2.2.1⟩

/-- Claim C9: the identifier resolution functions are total: on an
unresolved name with every listing source unreachable they return null
and cache the negative result; no transport error escapes them (every
catch in the source is local, so the embedding is a plain function). -/
theorem claim_C9_resolver_negative_caching (name : String) (now : Int) (cache : Cache)
    (msgP msgM : String) (bigOutcomes : List BigshareUrlOutcome)
    (hnd : keysNodup cache) (habs : mapGet cache (jsLowerTrim name) = none)
    (hpast : ∀ p ∈ cache, p.2.timestamp < now)
    (hlen : cache.length ≤ MAX_CACHE_SIZE)
    (hallfail : ∀ o ∈ bigOutcomes, ∃ m, o = .fail m) :
    ((getPurvaCompanyId name now cache (.fail msgP)).1 = none ∧
      mapGet (getPurvaCompanyId name now cache (.fail msgP)).2.1 (jsLowerTrim name) =
        some ⟨none, now⟩) ∧
    ((getMufgCompanyId name now cache (.fail msgM)).1 = none ∧
      mapGet (getMufgCompanyId name now cache (.fail msgM)).2.1 (jsLowerTrim name) =
        some ⟨none, now⟩) ∧
    ((getBigshareCompanyId name now cache bigOutcomes).1 = none ∧
      mapGet (getBigshareCompanyId name now cache bigOutcomes).2.1 (jsLowerTrim name) =
        some ⟨none, now⟩) := by
  refine ⟨⟨?_, ?_⟩, ⟨?_, ?_⟩, ⟨?_, ?_⟩⟩
  · rw [getPurvaCompanyId_miss habs]
  · rw [getPurvaCompanyId_miss habs]
    exact resolver_write_survives hnd hpast hlen
  · rw [getMufgCompanyId_miss habs]
  · rw [getMufgCompanyId_miss habs]
    exact resolver_write_survives hnd hpast hlen
  · rw [getBigshareCompanyId_miss habs, bigshareTryUrls_all_fail _ _ hallfail]
  · rw [getBigshareCompanyId_miss habs, bigshareTryUrls_all_fail _ _ hallfail]
    exact resolver_write_survives hnd hpast hlen

/-- Witness for claim C9 at an empty cache with unreachable sources. -/
theorem claim_C9_witness :
    (getPurvaCompanyId "zeta" 7 [] (.fail "net")).1 = none ∧
    mapGet (getPurvaCompanyId "zeta" 7 [] (.fail "net")).2.1 (jsLowerTrim "zeta") =
      some ⟨none, 7⟩ ∧
    (getBigshareCompanyId "zeta" 7 [] [.fail "a", .fail "b"]).1 = none := by
  have h := claim_C9_resolver_negative_caching "zeta" 7 [] "net" "net"
    [.fail "a", .fail "b"] (by simp [keysNodup]) rfl (by simp) (by simp)
    (by
      intro o ho
      simp only [List.mem_cons, List.not_mem_nil, or_false] at ho
      rcases ho with h1 | h1 <;> exact ⟨_, h1⟩)
  exact ⟨h.1.1, h.1.2, h.2.2.1⟩

/-! ## Claim C6: the MUFG and Link Intime identifier step -/

/-- Counterexample to claim C6: for the mufg and linkintime checkers a
numeric identifier does not bypass the resolver; with an uncached numeric
name the resolution step still performs one outbound listing fetch
(count 1, not 0) before falling back to the numeric name itself. -/
theorem claim_C6_counterexample :
    (mufgResolveCompanyId "12345" 0 [] (.page [])).2.2 = 1 ∧
    (mufgResolveCompanyId "12345" 0 [] (.page [])).1 = some "12345" ∧
    isNumericStr "12345" = true := by
  refine ⟨?_, ?_, ?_⟩ <;> decide

/-- Claim C6 as amended: checkMufg and checkLinkIntime invoke the
resolver first, unconditionally, so an uncached name always costs one
listing fetch; the provided identifier is used directly as the company
code only as a fallback, when resolution returned null and the
identifier is numeric. -/
theorem claim_C6_amended_resolver_first (name : String) (now : Int) (cache : Cache)
    (o : MufgListOutcome) (habs : mapGet cache (jsLowerTrim name) = none) :
    (mufgResolveCompanyId name now cache o).2.2 = 1 ∧
    ((getMufgCompanyId name now cache o).1 = none → isNumericStr name = true →
      (mufgResolveCompanyId name now cache o).1 = some name) ∧
    (∀ cid, (getMufgCompanyId name now cache o).1 = some cid →
      (mufgResolveCompanyId name now cache o).1 = some cid) := by
  have hX : mufgResolveCompanyId name now cache o =
      (match (getMufgCompanyId name now cache o).1 with
       | some cid => (some cid, (getMufgCompanyId name now cache o).2.1,
           (getMufgCompanyId name now cache o).2.2)
       | none =>
         if isNumericStr name then
           (some name, (getMufgCompanyId name now cache o).2.1,
             (getMufgCompanyId name now cache o).2.2)
         else (none, (getMufgCompanyId name now cache o).2.1,
           (getMufgCompanyId name now cache o).2.2)) := rfl
  have hn1 : (getMufgCompanyId name now cache o).2.2 = 1 := by
    rw [getMufgCompanyId_miss habs]
    cases o with
    | page cs => cases hf : mufgFindCompany (jsLowerTrim name) cs <;> simp [hf]
    | fail m => rfl
    | noData => rfl
  refine ⟨?_, ?_, ?_⟩
  · rw [hX]
    cases hres : (getMufgCompanyId name now cache o).1 with
    | some cid => exact hn1
    | none =>
      by_cases hb : isNumericStr name = true
      · rw [if_pos hb]
        exact hn1
      · rw [if_neg hb]
        exact hn1
  · intro h0 hnum
    rw [hX, h0, if_pos hnum]
  · intro cid hcid
    rw [hX, hcid]

/-- Witness for claim C6 as amended, at an uncached numeric name whose
listing fetch finds no match. -/
theorem claim_C6_amended_witness :
    (mufgResolveCompanyId "777" 0 [] (.page [])).2.2 = 1 ∧
    (mufgResolveCompanyId "777" 0 [] (.page [])).1 = some "777" := by
  have h := claim_C6_amended_resolver_first "777" 0 [] (.page []) rfl
  exact ⟨h.1, h.2.1 (by decide) (by decide)⟩

/-! ## Claim C7: the Purva table classification -/

theorem purvaFoldAux (l : List (List String)) (b : Bool) (t : Int)
    (hbt : b = true ↔ 0 < t) (ht : 0 ≤ t) :
    ((l.foldl
        (fun (acc : Bool × Int) cells =>
          if cells.length ≥ 6 then
            let sharesAllotted := parseIntOr0 (jsTrim (cells.getD 5 ""))
            if sharesAllotted > 0 then (true, acc.2 + sharesAllotted) else acc
          else acc)
        (b, t)).1 = true ∧
      0 < (l.foldl
        (fun (acc : Bool × Int) cells =>
          if cells.length ≥ 6 then
            let sharesAllotted := parseIntOr0 (jsTrim (cells.getD 5 ""))
            if sharesAllotted > 0 then (true, acc.2 + sharesAllotted) else acc
          else acc)
        (b, t)).2) ↔
      (b = true ∨ ∃ cells ∈ l, 6 ≤ cells.length ∧
        0 < parseIntOr0 (jsTrim (cells.getD 5 ""))) := by
  induction l generalizing b t with
  | nil =>
    simp only [List.foldl_nil, List.not_mem_nil, false_and, exists_false,
      exists_and_left, or_false]
    constructor
    · intro hh
      exact hh.1
    · intro hh
      exact ⟨hh, hbt.mp hh⟩
  | cons c rest ih =>
    by_cases h6 : c.length ≥ 6
    · by_cases hn : parseIntOr0 (jsTrim (c.getD 5 "")) > 0
      · simp only [List.foldl_cons, if_pos h6, if_pos hn]
        have hih := ih true (t + parseIntOr0 (jsTrim (c.getD 5 "")))
          ⟨fun _ => by omega, fun _ => rfl⟩ (by omega)
        rw [hih]
        constructor
        · intro _
          exact Or.inr ⟨c, List.mem_cons_self _ _, h6, hn⟩
        · intro _
          exact Or.inl rfl
      · simp only [List.foldl_cons, if_pos h6, if_neg hn]
        rw [ih b t hbt ht]
        constructor
        · intro hh
          rcases hh with hh | ⟨cells, hc, hlen6, hpos⟩
          · exact Or.inl hh
          · exact Or.inr ⟨cells, List.mem_cons_of_mem _ hc, hlen6, hpos⟩
        · intro hh
          rcases hh with hh | ⟨cells, hc, hlen6, hpos⟩
          · exact Or.inl hh
          · rcases List.mem_cons.mp hc with hc1 | hc1
            · exact absurd (hc1 ▸ hpos) hn
            · exact Or.inr ⟨cells, hc1, hlen6, hpos⟩
    · simp only [List.foldl_cons, if_neg h6]
      rw [ih b t hbt ht]
      constructor
      · intro hh
        rcases hh with hh | ⟨cells, hc, hlen6, hpos⟩
        · exact Or.inl hh
        · exact Or.inr ⟨cells, List.mem_cons_of_mem _ hc, hlen6, hpos⟩
      · intro hh
        rcases hh with hh | ⟨cells, hc, hlen6, hpos⟩
        · exact Or.inl hh
        · rcases List.mem_cons.mp hc with hc1 | hc1
          · exact absurd (hc1 ▸ hlen6) h6
          · exact Or.inr ⟨cells, hc1, hlen6, hpos⟩

theorem purvaClassify_allotted_iff (rows : List (List String)) :
    purvaClassify rows = "Allotted" ↔
      ∃ cells ∈ rows.drop 1, 6 ≤ cells.length ∧
        0 < parseIntOr0 (jsTrim (cells.getD 5 "")) := by
  have haux := purvaFoldAux (rows.drop 1) false 0 (by simp) (le_refl 0)
  by_cases hex : ∃ cells ∈ rows.drop 1, 6 ≤ cells.length ∧
      0 < parseIntOr0 (jsTrim (cells.getD 5 ""))
  · have hand := haux.mpr (Or.inr hex)
    unfold purvaClassify
    dsimp only
    rw [if_pos (by
      rw [Bool.and_eq_true]
      exact ⟨hand.1, decide_eq_true hand.2⟩)]
    exact iff_of_true rfl hex
  · have hnand : ¬ ((((rows.drop 1).foldl
        (fun (acc : Bool × Int) cells =>
          if cells.length ≥ 6 then
            let sharesAllotted := parseIntOr0 (jsTrim (cells.getD 5 ""))
            if sharesAllotted > 0 then (true, acc.2 + sharesAllotted) else acc
          else acc)
        (false, 0)).1 = true) ∧
        0 < ((rows.drop 1).foldl
        (fun (acc : Bool × Int) cells =>
          if cells.length ≥ 6 then
            let sharesAllotted := parseIntOr0 (jsTrim (cells.getD 5 ""))
            if sharesAllotted > 0 then (true, acc.2 + sharesAllotted) else acc
          else acc)
        (false, 0)).2) := by
      intro hcon
      rcases haux.mp hcon with hh | hh
      · simp at hh
      · exact hex hh
    unfold purvaClassify
    dsimp only
    rw [if_neg (by
      rw [Bool.and_eq_true]
      intro hcon
      exact hnand ⟨hcon.1, of_decide_eq_true hcon.2⟩)]
    constructor
    · intro hh
      exact absurd hh (by decide)
    · intro hh
      exact absurd hh hex

/-- Reduction of the embedded checkPurva on a good csrf page and a posted
response whose first table holds the given rows. -/
theorem checkPurva_ok_reduction (ipoName panNo : String) (now : Int) (cache : Cache)
    (listing : PurvaListOutcome) (rows : List (List String))
    (rest : List (List (List String))) :
    (checkPurva ipoName panNo now cache (.ok (some "tok")) listing (.ok (rows :: rest))).1 =
      if rows.length ≤ 1 then
        { success := true, registrar := "purva", raw := some (),
          status := "No Record Found" }
      else
        { success := true, registrar := "purva", raw := some (),
          status := purvaClassify rows } := by
  unfold checkPurva
  by_cases h : rows.length ≤ 1 <;> simp [h]

/-- Claim C7: with the first table of the Purva reply holding the given
rows, a header-only table yields No Record Found; with two or more rows
the result is Allotted exactly when some data row has at least six cells
and a positive integer in the sixth, and Not Allotted otherwise; the
result is always a success. -/
theorem claim_C7_purva_classification (ipoName panNo : String) (now : Int)
    (cache : Cache) (listing : PurvaListOutcome) (rows : List (List String))
    (rest : List (List (List String))) :
    ((rows.length ≤ 1 →
      (checkPurva ipoName panNo now cache (.ok (some "tok")) listing
        (.ok (rows :: rest))).1.status = "No Record Found") ∧
     (2 ≤ rows.length →
      ((checkPurva ipoName panNo now cache (.ok (some "tok")) listing
         (.ok (rows :: rest))).1.status = "Allotted" ↔
        ∃ cells ∈ rows.drop 1, 6 ≤ cells.length ∧
          0 < parseIntOr0 (jsTrim (cells.getD 5 ""))) ∧
      ((checkPurva ipoName panNo now cache (.ok (some "tok")) listing
         (.ok (rows :: rest))).1.status = "Allotted" ∨
       (checkPurva ipoName panNo now cache (.ok (some "tok")) listing
         (.ok (rows :: rest))).1.status = "Not Allotted")) ∧
     (checkPurva ipoName panNo now cache (.ok (some "tok")) listing
       (.ok (rows :: rest))).1.success = true) := by
  rw [checkPurva_ok_reduction]
  by_cases h : rows.length ≤ 1
  · rw [if_pos h]
    refine ⟨fun _ => rfl, fun h2 => absurd h (by omega), rfl⟩
  · rw [if_neg h]
    refine ⟨fun h1 => absurd h1 h, fun _ => ?_, rfl⟩
    exact ⟨purvaClassify_allotted_iff rows, purvaClassify_cases rows⟩

/-- Witness for claim C7: a header-only table yields No Record Found, a
table with one data row whose sixth cell is 50 yields Allotted. -/
theorem claim_C7_witness :
    (checkPurva "x" "p" 0 [] (.ok (some "tok")) (.fail "e")
      (.ok [[["h"]]])).1.status = "No Record Found" ∧
    (checkPurva "x" "p" 0 [] (.ok (some "tok")) (.fail "e")
      (.ok [[["h"], ["a", "b", "c", "d", "e", "50"]]])).1.status = "Allotted" ∧
    (checkPurva "x" "p" 0 [] (.ok (some "tok")) (.fail "e")
      (.ok [[["h"], ["a", "b", "c", "d", "e", "0"]]])).1.status = "Not Allotted" := by
  have h1 := claim_C7_purva_classification "x" "p" 0 [] (.fail "e") [["h"]] []
  have h2 := claim_C7_purva_classification "x" "p" 0 [] (.fail "e")
    [["h"], ["a", "b", "c", "d", "e", "50"]] []
  have h3 := claim_C7_purva_classification "x" "p" 0 [] (.fail "e")
    [["h"], ["a", "b", "c", "d", "e", "0"]] []
  refine ⟨h1.1 (by decide), ?_, ?_⟩
  · exact ((h2.2.1 (by decide)).1).mpr
      ⟨["a", "b", "c", "d", "e", "50"], by decide, by decide, by decide⟩
  · rcases (h3.2.1 (by decide)).2 with hh | hh
    · exfalso
      have := ((h3.2.1 (by decide)).1).mp hh
      revert this
      decide
    · exact hh

/-! ## Claims C8 and C10: the Cameo checker -/

theorem cameoCaptchaLoop_all_challenge (code : String)
    (submits : Nat → CameoSubmitOutcome) (caps : List String) (i : Nat)
    (h : ∀ j, j < caps.length → ∃ r, submits (i + j) = .resp r ∧ r.challengeMarker = true) :
    cameoCaptchaLoop code submits caps i = none := by
  induction caps generalizing i with
  | nil => rfl
  | cons cap rest ih =>
    obtain ⟨r, hr, hch⟩ := h 0 (by simp)
    rw [Nat.add_zero] at hr
    have hrest : ∀ j, j < rest.length →
        ∃ r2, submits (i + 1 + j) = .resp r2 ∧ r2.challengeMarker = true := by
      intro j hj
      have hh := h (j + 1) (by simpa using Nat.succ_lt_succ hj)
      rwa [show i + (j + 1) = i + 1 + j by omega] at hh
    simp only [cameoCaptchaLoop, hr, hch, if_true]
    exact ih (i + 1) hrest

/-- Claim C8: when every submission attempted by the Cameo checker comes
back signalling the captcha challenge, exhausting the fixed ordered list
of fallback captcha values yields a captcha_required failure, not the
generic error status. -/
theorem claim_C8_cameo_captcha_exhaustion (ipoName panNo vs randCaptcha : String)
    (p : CameoPage) (submits : Nat → CameoSubmitOutcome)
    (rest : List CameoEndpointOutcome) (companyCode : String)
    (hvs : p.viewState = some vs) (hvs2 : vs ≠ "")
    (hcompany : cameoChooseCompany ipoName p = some companyCode)
    (hch : ∀ j, j < 5 → ∃ r, submits j = .resp r ∧ r.challengeMarker = true) :
    checkCameo ipoName panNo (.page p randCaptcha submits :: rest) =
      { success := false, registrar := "cameo", raw := none,
        status := "captcha_required",
        error := some ("All captcha strategies failed. Captcha verification " ++
          "is required for Cameo IPO allotment checking.") } := by
  have hvsf : (vs == "") = false := by
    simpa using hvs2
  have hch' : ∀ j, j < (cameoCaptchaStrategies randCaptcha).length →
      ∃ r, submits (0 + j) = .resp r ∧ r.challengeMarker = true := by
    intro j hj
    have hj5 : j < 5 := by simpa [cameoCaptchaStrategies] using hj
    simpa using hch j hj5
  simp only [checkCameo, hvs, hvsf, Bool.false_eq_true, if_false, hcompany,
    cameoCaptchaLoop_all_challenge companyCode submits (cameoCaptchaStrategies randCaptcha) 0 hch']

/-- Witness for claim C8 at a concrete endpoint page whose five
submissions all come back with the challenge marker. -/
theorem claim_C8_witness :
    checkCameo "Zed Ltd" "ABCDE1234F"
      [.page ⟨some "V", none, none, [(some "7", "Zed Ltd")]⟩ "111111"
        (fun _ => .resp ⟨true, ⟨false, [], none⟩⟩)] =
      { success := false, registrar := "cameo", raw := none,
        status := "captcha_required",
        error := some ("All captcha strategies failed. Captcha verification " ++
          "is required for Cameo IPO allotment checking.") } := by
  exact claim_C8_cameo_captcha_exhaustion "Zed Ltd" "ABCDE1234F" "V" "111111"
    ⟨some "V", none, none, [(some "7", "Zed Ltd")]⟩
    (fun _ => .resp ⟨true, ⟨false, [], none⟩⟩) [] "7" rfl (by decide) (by decide)
    (fun j hj => ⟨⟨true, ⟨false, [], none⟩⟩, rfl, rfl⟩)

/-- Claim C10: when the scraped Cameo dropdown is nonempty but no option
matches the requested name exactly or by substring, the checker does not
fail for that reason: it submits the form with the first company of the
dropdown as the company code, so the returned result can describe a
different IPO; with a benign first submission it succeeds and its details
name that company code. -/
theorem claim_C10_cameo_first_company_fallback (ipoName panNo vs randCaptcha : String)
    (p : CameoPage) (submits : Nat → CameoSubmitOutcome) (k1 v1 : String)
    (restC : List (String × String))
    (hvs : p.viewState = some vs) (hvs2 : vs ≠ "")
    (hcompanies : cameoCompanies p.dropOptions = (k1, v1) :: restC)
    (hexact : mapGet (cameoCompanies p.dropOptions) (jsToLower ipoName) = none)
    (hpartial2 : (cameoCompanies p.dropOptions).find? (fun kv =>
        strIncludes kv.1 (jsToLower ipoName) ||
        strIncludes (jsToLower ipoName) kv.1) = none)
    (hsubmit : submits 0 = .resp ⟨false, ⟨false, [], none⟩⟩) :
    cameoChooseCompany ipoName p = some v1 ∧
    checkCameo ipoName panNo [.page p randCaptcha submits] =
      { success := true, registrar := "cameo", raw := some (),
        status := "No Record Found", allotmentDetails := none,
        details := some ("Used company code: " ++ v1 ++ ", captcha: " ++ "596407") } := by
  have hvsf : (vs == "") = false := by
    simpa using hvs2
  have hchoose : cameoChooseCompany ipoName p = some v1 := by
    unfold cameoChooseCompany
    simp only [hexact, hpartial2]
    simp only [hcompanies, List.head?_cons]
    rfl
  refine ⟨hchoose, ?_⟩
  simp only [checkCameo, hvs, hvsf, Bool.false_eq_true, if_false, hchoose]
  simp only [cameoCaptchaStrategies, cameoCaptchaLoop, hsubmit, Bool.false_eq_true,
    if_false]
  rfl

/-- Witness for claim C10 at a concrete page whose single company does
not match the requested name at all. -/
theorem claim_C10_witness :
    cameoChooseCompany "Totally Different Co"
      ⟨some "V", none, none, [(some "10", "Alpha Ltd"), (some "20", "Beta Corp")]⟩ =
      some "10" ∧
    checkCameo "Totally Different Co" "ABCDE1234F"
      [.page ⟨some "V", none, none, [(some "10", "Alpha Ltd"), (some "20", "Beta Corp")]⟩
        "222222" (fun _ => .resp ⟨false, ⟨false, [], none⟩⟩)] =
      { success := true, registrar := "cameo", raw := some (),
        status := "No Record Found", allotmentDetails := none,
        details := some ("Used company code: " ++ "10" ++ ", captcha: " ++ "596407") } := by
  exact claim_C10_cameo_first_company_fallback "Totally Different Co" "ABCDE1234F" "V"
    "222222"
    ⟨some "V", none, none, [(some "10", "Alpha Ltd"), (some "20", "Beta Corp")]⟩
    (fun _ => .resp ⟨false, ⟨false, [], none⟩⟩) "alpha ltd" "10"
    [("beta corp", "20")] rfl (by decide) (by decide) (by decide) (by decide) rfl

end IpoEdge
